import Mathlib

/-!
Verification of the SCL structural scanner (`src/parser.ts`) and the
diagnostic rule engine (`src/rules.ts`) of the TIA-SCL repository.

Lines of source text are embedded as `List Char`; JavaScript strings,
arrays and `Map`s become Lean lists (JS arrays push at the end; we keep
stacks with the top at the head and reverse where the source spreads a
stack bottom-to-top).  JS regular expressions used by the parser are
translated into explicit character scans with the same matching
semantics.  Only the ASCII fragment of `toUpperCase`/`toLowerCase` is
modelled, which is all the scanner's keyword tables exercise.
-/

set_option maxRecDepth 10000
set_option maxHeartbeats 1600000

namespace SCL

abbrev Str := List Char

/-- Single-quote character, used when assembling diagnostic messages. -/
def sq : Char := Char.ofNat 39

/-- Opening brace character (pragma lines start with it). -/
def obrace : Char := Char.ofNat 123

/-- ASCII uppercase conversion of one character (JS `toUpperCase` on the
ASCII range). -/
def upChar (c : Char) : Char :=
  if 'a' ≤ c ∧ c ≤ 'z' then Char.ofNat (c.toNat - 32) else c

/-- ASCII lowercase conversion of one character (JS `toLowerCase` on the
ASCII range). -/
def lowChar (c : Char) : Char :=
  if 'A' ≤ c ∧ c ≤ 'Z' then Char.ofNat (c.toNat + 32) else c

def upperStr (s : Str) : Str := s.map upChar

def lowerStr (s : Str) : Str := s.map lowChar

/-- JS `\s` on the ASCII range (space and control whitespace). -/
def isWS (c : Char) : Bool :=
  c = ' ' ∨ c = '\t' ∨ c = '\n' ∨ c = '\r' ∨ c = Char.ofNat 11 ∨ c = Char.ofNat 12

/-- JS `\w`: letters, digits and underscore. -/
def isWordChar (c : Char) : Bool :=
  ('A' ≤ c ∧ c ≤ 'Z') ∨ ('a' ≤ c ∧ c ≤ 'z') ∨ ('0' ≤ c ∧ c ≤ '9') ∨ c = '_'

/-- JS `String.prototype.trim`. -/
def trimL (s : Str) : Str :=
  ((s.dropWhile isWS).reverse.dropWhile isWS).reverse

/-- `n` space characters (the blanking fill used by the scanner). -/
def spaces (n : Nat) : Str := List.replicate n ' '

/-- Index of the first occurrence of `pat` in `s` (JS `indexOf`,
`none` for JS `-1`). -/
def subIndex (pat : Str) : Str → Option Nat
  | [] => if pat.isEmpty then some 0 else none
  | c :: t =>
    if pat.isPrefixOf (c :: t) then some 0
    else (subIndex pat t).map (· + 1)

/-- JS `text.split(/\r?\n/)`: a `\n` optionally preceded by `\r`
separates lines; a lone `\r` is kept. -/
def splitLines : Str → List Str
  | [] => [[]]
  | '\r' :: '\n' :: t => [] :: splitLines t
  | '\n' :: t => [] :: splitLines t
  | c :: t =>
    match splitLines t with
    | h :: r => (c :: h) :: r
    | [] => [[c]]

/-- Decimal representation of a `Nat` (used in diagnostic messages where
the source interpolates `line + 1`). -/
def natStr (n : Nat) : Str := Nat.toDigits 10 n

/-! ### `src/parser.ts` helper functions -/

/-- `matchKeyword` (parser.ts:356): the already upper-cased trimmed line
matches `keyword` when it equals it, equals it followed by `;`, or starts
with it followed by a space, tab or semicolon. -/
def matchKeyword (upper keyword : Str) : Bool :=
  upper = keyword ∨ upper = keyword ++ [';'] ∨
    (keyword ++ [' ']).isPrefixOf upper ∨
    (keyword ++ ['\t']).isPrefixOf upper ∨
    (keyword ++ [';']).isPrefixOf upper

/-- `extractBlockName` (parser.ts:363): first match of `/"([^"]+)"/`,
i.e. the first double-quoted segment with a non-empty interior; empty
when there is none. -/
def extractBlockName : Str → Str
  | [] => []
  | '"' :: rest =>
    let j := rest.findIdx (· = '"')
    if j < rest.length then
      if 0 < j then rest.take j else extractBlockName rest
    else extractBlockName rest
  | _ :: rest => extractBlockName rest

/-- Scanner for `stripBlockComments`; the flag is true while inside a
`(*`-comment whose lazily matched terminator is still ahead. -/
def sbcAux : Bool → Str → Str
  | false, '(' :: '*' :: t =>
    if (subIndex ['*', ')'] t).isSome then ' ' :: ' ' :: sbcAux true t
    else '(' :: '*' :: t
  | false, c :: t => c :: sbcAux false t
  | true, '*' :: ')' :: t => ' ' :: ' ' :: sbcAux false t
  | true, _ :: t => ' ' :: sbcAux true t
  | _, [] => []

/-- `stripBlockComments` (parser.ts:368): replace every lazily matched
`(* ... *)` with spaces of the same length (regex
`/\(\*[\s\S]*?\*\)/g`); a `(*` with no `*)` anywhere after it matches
nothing and is left as is. -/
def stripBlockComments (l : Str) : Str := sbcAux false l

/-- Character loop of `lineCommentIndex` (parser.ts:372): runs while at
least two characters remain, tracking single/double-quote string state. -/
def lciAux (inString : Bool) (stringChar : Char) (idx : Nat) : Str → Option Nat
  | c1 :: c2 :: t =>
    if inString then
      if c1 = stringChar then lciAux false stringChar (idx + 1) (c2 :: t)
      else lciAux true stringChar (idx + 1) (c2 :: t)
    else
      if c1 = sq ∨ c1 = '"' then lciAux true c1 (idx + 1) (c2 :: t)
      else if c1 = '/' ∧ c2 = '/' then some idx
      else lciAux false stringChar (idx + 1) (c2 :: t)
  | _ => none

/-- `lineCommentIndex` (parser.ts:372): index of the first `//` not
inside a single- or double-quoted string (`none` for the source's `-1`). -/
def lineCommentIndex (line : Str) : Option Nat :=
  lciAux false ' ' 0 line

/-- Scanner for one pass of `stripStrings`; the flag is true while
inside a `q`-quoted literal whose closing quote is still ahead. -/
def stripQuotedAux (q : Char) : Bool → Str → Str
  | false, c :: t =>
    if c = q then
      if t.contains q then q :: stripQuotedAux q true t else c :: t
    else c :: stripQuotedAux q false t
  | true, c :: t =>
    if c = q then q :: stripQuotedAux q false t
    else ' ' :: stripQuotedAux q true t
  | _, [] => []

/-- One global pass of `/X[^X]*X/g` replacement used by `stripStrings`:
blank the interior of each `q`-delimited literal, keeping the quotes; an
opening quote with no closing quote after it matches nothing. -/
def stripQuoted (q : Char) (l : Str) : Str := stripQuotedAux q false l

/-- `stripStrings` (parser.ts:391): blank single-quoted literals, then
double-quoted literals, keeping the delimiters. -/
def stripStrings (line : Str) : Str :=
  stripQuoted '"' (stripQuoted sq line)

/-- `KEYWORD_SET` (parser.ts:396). -/
def keywordSet : List Str :=
  [ "IF".data, "THEN".data, "ELSIF".data, "ELSE".data, "END_IF".data,
    "FOR".data, "TO".data, "BY".data, "DO".data, "END_FOR".data,
    "WHILE".data, "END_WHILE".data, "REPEAT".data, "UNTIL".data, "END_REPEAT".data,
    "CASE".data, "OF".data, "END_CASE".data, "RETURN".data, "EXIT".data, "CONTINUE".data,
    "BEGIN".data, "END_VAR".data, "END_STRUCT".data, "REGION".data, "END_REGION".data,
    "TRUE".data, "FALSE".data, "AND".data, "OR".data, "XOR".data, "NOT".data, "MOD".data ]

/-- `isKeyword` (parser.ts:405). -/
def isKeyword (word : Str) : Bool :=
  keywordSet.contains (upperStr word)

theorem takeWhile_len_le (p : Char → Bool) (l : Str) :
    (l.takeWhile p).length ≤ l.length := by
  induction l with
  | nil => simp
  | cons c t ih =>
    simp only [List.takeWhile]
    cases p c
    · simp
    · simp
      omega

/-- Identifier start of the `#variable` capture (`[A-Za-z_]`). -/
def identStart (c : Char) : Bool :=
  ('A' ≤ c ∧ c ≤ 'Z') ∨ ('a' ≤ c ∧ c ≤ 'z') ∨ c = '_'

/-- Fuelled scan for `hashVars`; every step consumes at least one
character, so fuel at least the length of the list is enough. -/
def hashVarsF : Nat → Str → List Str
  | _, [] => []
  | 0, _ => []
  | fuel + 1, '#' :: c :: t =>
    if identStart c then
      let w := (c :: t).takeWhile isWordChar
      w :: hashVarsF fuel ((c :: t).drop w.length)
    else hashVarsF fuel (c :: t)
  | fuel + 1, _ :: t => hashVarsF fuel t

/-- `#variable` scan (parser.ts:146): all matches of `/#([A-Za-z_]\w*)/g`,
captures in order of occurrence. -/
def hashVars (l : Str) : List Str := hashVarsF l.length l

/-- Can `rem` complete the tail `\s*;` of the declaration regex? -/
def semiAfterWS (rem : Str) : Bool :=
  match rem.dropWhile isWS with
  | ';' :: _ => true
  | _ => false

/-- Can `rem` complete `(?:\s*:=\s*.+?)?\s*;` with the optional
default-value group present? -/
def declGroupOk (rem : Str) : Bool :=
  match rem.dropWhile isWS with
  | ':' :: '=' :: r3 => (r3.drop 1).contains ';'
  | _ => false

/-- Continuation test for one candidate split of the declaration regex:
after the captured type come either the default-value group or directly
the whitespace and semicolon. -/
def declTailOk (rem : Str) : Bool :=
  declGroupOk rem ∨ semiAfterWS rem

/-- The full declaration regex (parser.ts:256)
`/^(\w+)\s*:\s*(.+?)(?:\s*:=\s*.+?)?\s*;/` as a backtracking search:
the leading `\s*` is greedy (longest first), the lazy `(.+?)` shortest
first; returns the captured name and raw type. -/
def declRegexFull (l : Str) : Option (Str × Str) :=
  let name := l.takeWhile isWordChar
  if name.isEmpty then none else
  match (l.drop name.length).dropWhile isWS with
  | ':' :: tail =>
    let w0 := (tail.takeWhile isWS).length
    let cands := ((List.range (w0 + 1)).reverse).flatMap fun w =>
      (List.range (tail.length - w)).map fun t0 => (w, t0 + 1)
    match cands.find? (fun wt => declTailOk ((tail.drop wt.1).drop wt.2)) with
    | some wt => some (name, (tail.drop wt.1).take wt.2)
    | none => none
  | _ => none

/-- The fallback declaration regex (parser.ts:273) `/^(\w+)\s*:\s*(\S+)/`. -/
def declRegexSimple (l : Str) : Option (Str × Str) :=
  let name := l.takeWhile isWordChar
  if name.isEmpty then none else
  match (l.drop name.length).dropWhile isWS with
  | ':' :: tail =>
    match tail.dropWhile isWS with
    | [] => none
    | d => some (name, d.takeWhile (fun c => ¬ isWS c))
  | _ => none

/-- JS `replace(/;$/, "")`: drop one trailing semicolon. -/
def dropTrailingSemi (s : Str) : Str :=
  match s.reverse with
  | ';' :: r => r.reverse
  | _ => s

/-! ### Data model (parser.ts:13) -/

structure StackEntry where
  keyword : Str
  line : Nat
  col : Nat
  deriving DecidableEq, Repr

structure VariableDecl where
  name : Str
  type : Str
  varSection : Str
  block : Str
  line : Nat
  col : Nat
  deriving DecidableEq, Repr

structure BlockDecl where
  type : Str
  name : Str
  line : Nat
  endLine : Int
  hasVersion : Bool
  hasPragma : Bool
  hasBegin : Bool
  hasCode : Bool
  hasCaseElse : List (Nat × Bool)
  deriving DecidableEq, Repr

structure ParseResult where
  blocks : List BlockDecl
  vars : List VariableDecl
  usedVariables : List Str
  unmatchedOpens : List StackEntry
  unmatchedCloses : List StackEntry
  exitOutsideLoop : List StackEntry
  deriving DecidableEq, Repr

/-- Insertion into the used-variable set (JS `Set.add`). -/
def setAdd (s : List Str) (x : Str) : List Str :=
  if s.contains x then s else s ++ [x]

/-- JS `Map.get` on a key-ordered association list. -/
def mapGet (m : List (Str × α)) (k : Str) : Option α :=
  (m.find? (fun e => e.1 = k)).map (·.2)

/-- JS `Map.set`: update in place when the key exists, append otherwise. -/
def mapSet (m : List (Str × α)) (k : Str) (v : α) : List (Str × α) :=
  match m with
  | [] => [(k, v)]
  | e :: r => if e.1 = k then (k, v) :: r else e :: mapSet r k v

/-- `Map.set` for the `Nat`-keyed `hasCaseElse` map. -/
def mapSetN (m : List (Nat × Bool)) (k : Nat) (v : Bool) : List (Nat × Bool) :=
  match m with
  | [] => [(k, v)]
  | e :: r => if e.1 = k then (k, v) :: r else e :: mapSetN r k v

/-! ### Keyword tables (parser.ts:51) -/

/-- `BLOCK_PAIRS`, in object-key insertion order. -/
def blockPairs : List (Str × Str) :=
  [ ("FUNCTION_BLOCK".data, "END_FUNCTION_BLOCK".data),
    ("FUNCTION".data, "END_FUNCTION".data),
    ("ORGANIZATION_BLOCK".data, "END_ORGANIZATION_BLOCK".data),
    ("DATA_BLOCK".data, "END_DATA_BLOCK".data),
    ("TYPE".data, "END_TYPE".data) ]

/-- Lookup in `BLOCK_PAIRS`. -/
def blockPairOf (kw : Str) : Option Str :=
  (blockPairs.find? (fun p => p.1 = kw)).map (·.2)

/-- Keys of `BLOCK_END_TO_OPEN`, in insertion order. -/
def blockEnds : List Str := blockPairs.map (·.2)

/-- `VAR_OPENS`, in set insertion order. -/
def varOpens : List Str :=
  [ "VAR_INPUT".data, "VAR_OUTPUT".data, "VAR_IN_OUT".data, "VAR_TEMP".data,
    "VAR_GLOBAL".data, "VAR".data, "STRUCT".data ]

/-- `CONTROL_PAIRS`, in object-key insertion order. -/
def controlPairs : List (Str × Str) :=
  [ ("IF".data, "END_IF".data),
    ("FOR".data, "END_FOR".data),
    ("WHILE".data, "END_WHILE".data),
    ("REPEAT".data, "END_REPEAT".data),
    ("CASE".data, "END_CASE".data),
    ("REGION".data, "END_REGION".data) ]

/-- `CONTROL_END_TO_OPEN` lookup. -/
def controlEndToOpen (kw : Str) : Option Str :=
  (controlPairs.find? (fun p => p.2 = kw)).map (·.1)

/-- Keys of `CONTROL_END_TO_OPEN`, in insertion order. -/
def controlEnds : List Str := controlPairs.map (·.2)

/-- `LOOP_KEYWORDS`. -/
def loopKeywords : List Str := ["FOR".data, "WHILE".data, "REPEAT".data]

/-! ### Scanner state (the mutable locals of `parse`, parser.ts:87) -/

structure ScanState where
  blocks : List BlockDecl
  vars : List VariableDecl
  used : List Str
  unmatchedCloses : List StackEntry
  exitOutside : List StackEntry
  blockStack : List StackEntry
  varStack : List StackEntry
  controlStack : List StackEntry
  currentBlock : Option Nat
  currentVarSection : Str
  inBlockComment : Bool
  afterBegin : Bool
  lineIdx : Nat
  deriving DecidableEq, Repr

/-- Delimiter family of an open/close event. -/
inductive Family where
  | blockF
  | varF
  | ctrlF
  deriving DecidableEq, Repr

/-- An opener/closer occurrence recognized while scanning; `opens` is
true for openers.  The trace of events is instrumentation over the
source's behaviour, used to state well-formedness of the input. -/
structure Event where
  fam : Family
  opens : Bool
  kw : Str
  deriving DecidableEq, Repr

def listModify (l : List α) (i : Nat) (f : α → α) : List α :=
  match l, i with
  | [], _ => []
  | x :: r, 0 => f x :: r
  | x :: r, n + 1 => x :: listModify r n f

/-- Mutate the block `currentBlock` points at, as the JS
`currentBlock.field = ...` assignments do (no-op when it is null). -/
def markCurrent (s : ScanState) (f : BlockDecl → BlockDecl) : ScanState :=
  match s.currentBlock with
  | some i => { s with blocks := listModify s.blocks i f }
  | none => s

/-- Name of the current block (`currentBlock?.name || ""`). -/
def curBlockName (s : ScanState) : Str :=
  match s.currentBlock with
  | some i => ((s.blocks.get? i).map (·.name)).getD []
  | none => []

/-- Block declaration branch (parser.ts:166). -/
def blockOpenStep (s : ScanState) (origLine : Str) (kw : Str) :
    ScanState × List Event × List Event :=
  let name := extractBlockName origLine
  let block : BlockDecl :=
    { type := kw, name := name, line := s.lineIdx, endLine := -1,
      hasVersion := false, hasPragma := false, hasBegin := false,
      hasCode := false, hasCaseElse := [] }
  ({ s with blocks := s.blocks ++ [block],
            currentBlock := some s.blocks.length,
            blockStack := ⟨kw, s.lineIdx, 0⟩ :: s.blockStack,
            afterBegin := false },
   [⟨.blockF, true, kw⟩], [⟨.blockF, true, kw⟩])

/-- Block end branch (parser.ts:191). -/
def blockCloseStep (s : ScanState) (closeKw : Str) :
    ScanState × List Event × List Event :=
  let ev : List Event := [⟨.blockF, false, closeKw⟩]
  match s.blockStack with
  | top :: rest =>
    if blockPairOf top.keyword = some closeKw then
      let s' := markCurrent s (fun b => { b with endLine := (s.lineIdx : Int) })
      ({ s' with blockStack := rest, currentBlock := none, afterBegin := false }, ev, ev)
    else
      ({ s with unmatchedCloses := s.unmatchedCloses ++ [⟨closeKw, s.lineIdx, 0⟩] }, ev, ev)
  | [] =>
    ({ s with unmatchedCloses := s.unmatchedCloses ++ [⟨closeKw, s.lineIdx, 0⟩] }, ev, ev)

/-- `END_VAR` / `END_STRUCT` branch (parser.ts:220). -/
def varEndStep (s : ScanState) (upper : Str) :
    ScanState × List Event × List Event :=
  let kw := if "END_STRUCT".data.isPrefixOf upper then "END_STRUCT".data else "END_VAR".data
  let ev : List Event := [⟨.varF, false, kw⟩]
  match s.varStack with
  | _ :: rest =>
    ({ s with varStack := rest,
              currentVarSection := match rest with
                | e :: _ => e.keyword
                | [] => [] }, ev, ev)
  | [] =>
    ({ s with unmatchedCloses := s.unmatchedCloses ++ [⟨kw, s.lineIdx, 0⟩] }, ev, ev)

/-- `VAR CONSTANT` special case (parser.ts:234). -/
def varConstStep (s : ScanState) : ScanState × List Event × List Event :=
  ({ s with currentVarSection := "VAR_CONSTANT".data,
            varStack := ⟨"VAR_CONSTANT".data, s.lineIdx, 0⟩ :: s.varStack },
   [⟨.varF, true, "VAR_CONSTANT".data⟩], [⟨.varF, true, "VAR_CONSTANT".data⟩])

/-- Variable-section opener branch (parser.ts:242). -/
def varOpenStep (s : ScanState) (kw : Str) : ScanState × List Event × List Event :=
  ({ s with currentVarSection := kw,
            varStack := ⟨kw, s.lineIdx, 0⟩ :: s.varStack },
   [⟨.varF, true, kw⟩], [⟨.varF, true, kw⟩])

/-- Variable-declaration branch (parser.ts:253). -/
def declStep (s : ScanState) (origLine : Str) : ScanState :=
  let origTrimmed := trimL origLine
  match declRegexFull origTrimmed with
  | some nt =>
    if isKeyword nt.1 then s
    else
      { s with vars := s.vars ++
          [{ name := nt.1,
             type := trimL (dropTrailingSemi (trimL nt.2)),
             varSection := s.currentVarSection,
             block := curBlockName s,
             line := s.lineIdx,
             col := (subIndex nt.1 origTrimmed).getD 0 }] }
  | none =>
    match declRegexSimple origTrimmed with
    | some nt =>
      if isKeyword nt.1 then s
      else
        { s with vars := s.vars ++
            [{ name := nt.1,
               type := trimL (dropTrailingSemi nt.2),
               varSection := s.currentVarSection,
               block := curBlockName s,
               line := s.lineIdx,
               col := 0 }] }
    | none => s

/-- Executable-code section (parser.ts:288): `hasCode` marking, CASE /
ELSE tracking, control-flow pushes and pops, EXIT/CONTINUE check.  The
second event list records the spec's uniform opener-recognition rule for
IF (keyword matching per spec section 4.1) where the code uses the
narrower `upper === "IF" || upper.startsWith("IF ")` test. -/
def codeStep (s : ScanState) (trimmed upper : Str) :
    ScanState × List Event × List Event :=
  let s1 :=
    if s.currentBlock.isSome ∧ trimmed ≠ [';'] ∧ ¬ ("END_".data.isPrefixOf upper) then
      markCurrent s (fun b => { b with hasCode := true })
    else s
  if matchKeyword upper "CASE".data then
    let s2 := { s1 with controlStack := ⟨"CASE".data, s.lineIdx, 0⟩ :: s1.controlStack }
    (markCurrent s2 (fun b => { b with hasCaseElse := mapSetN b.hasCaseElse s.lineIdx false }),
     [⟨.ctrlF, true, "CASE".data⟩], [⟨.ctrlF, true, "CASE".data⟩])
  else if matchKeyword upper "ELSE".data ∧ ¬ s1.controlStack.isEmpty then
    match s1.controlStack with
    | top :: _ =>
      if top.keyword = "CASE".data ∧ s1.currentBlock.isSome then
        (markCurrent s1 (fun b => { b with hasCaseElse := mapSetN b.hasCaseElse top.line true }),
         [], [])
      else (s1, [], [])
    | [] => (s1, [], [])
  else
    let ifPush := (upper = "IF".data ∨ "IF ".data.isPrefixOf upper) ∧
      ¬ ("ELSIF".data.isPrefixOf upper)
    let s2 := if ifPush then { s1 with controlStack := ⟨"IF".data, s.lineIdx, 0⟩ :: s1.controlStack } else s1
    let ev1 : List Event := if ifPush then [⟨.ctrlF, true, "IF".data⟩] else []
    let sev1 : List Event := if matchKeyword upper "IF".data then [⟨.ctrlF, true, "IF".data⟩] else []
    let step3 : ScanState × List Event :=
      match ["FOR".data, "WHILE".data, "REPEAT".data, "REGION".data].find?
          (fun k => matchKeyword upper k) with
      | some k =>
        ({ s2 with controlStack := ⟨k, s.lineIdx, 0⟩ :: s2.controlStack },
         ([⟨.ctrlF, true, k⟩] : List Event))
      | none => (s2, [])
    let s3 := step3.1
    let step4 : ScanState × List Event :=
      match controlEnds.find? (fun k => matchKeyword upper k) with
      | some closeKw =>
        let st : ScanState :=
          match s3.controlStack with
          | top :: rest =>
            if some top.keyword = controlEndToOpen closeKw then
              { s3 with controlStack := rest }
            else
              { s3 with unmatchedCloses := s3.unmatchedCloses ++ [⟨closeKw, s.lineIdx, 0⟩] }
          | [] =>
            { s3 with unmatchedCloses := s3.unmatchedCloses ++ [⟨closeKw, s.lineIdx, 0⟩] }
        (st, ([⟨.ctrlF, false, closeKw⟩] : List Event))
      | none => (s3, [])
    let s4 := step4.1
    let s5 :=
      if matchKeyword upper "EXIT".data ∨ matchKeyword upper "CONTINUE".data then
        if s4.controlStack.any (fun e => loopKeywords.contains e.keyword) then s4
        else
          { s4 with exitOutside := s4.exitOutside ++
              [⟨(if "EXIT".data.isPrefixOf upper then "EXIT".data else "CONTINUE".data),
                s.lineIdx, 0⟩] }
      else s4
    (s5, ev1 ++ step3.2 ++ step4.2, sev1 ++ step3.2 ++ step4.2)

/-- Does the trimmed line start with `{` (pragma test, parser.ts:153)? -/
def pragmaTest (trimmed : Str) : Bool :=
  match trimmed with
  | c :: _ => c = obrace
  | [] => false

/-- `#variable` usage collection (parser.ts:146). -/
def usedUpd (s : ScanState) (origLine : Str) : ScanState :=
  { s with used := (hashVars origLine).foldl (fun u w => setAdd u (lowerStr w)) s.used }

/-- Classification of one preprocessed line (parser.ts:134-345);
`origLine` is the source's `originalLine` (comments removed, strings
still present). -/
def classify (s : ScanState) (origLine : Str) : ScanState × List Event × List Event :=
  let line := stripStrings origLine
  let trimmed := trimL line
  if trimmed.isEmpty then (s, [], [])
  else
    let upper := upperStr trimmed
    let s0 := usedUpd s origLine
    if pragmaTest trimmed ∧ s0.currentBlock.isSome then
      (markCurrent s0 (fun b => { b with hasPragma := true }), [], [])
    else if "VERSION".data.isPrefixOf upper ∧ s0.currentBlock.isSome then
      (markCurrent s0 (fun b => { b with hasVersion := true }), [], [])
    else
      match blockPairs.find? (fun p => matchKeyword upper p.1) with
      | some p => blockOpenStep s0 origLine p.1
      | none =>
        match blockEnds.find? (fun k => matchKeyword upper k) with
        | some closeKw => blockCloseStep s0 closeKw
        | none =>
          if upper = "BEGIN".data then
            ({ markCurrent s0 (fun b => { b with hasBegin := true }) with afterBegin := true }, [], [])
          else if matchKeyword upper "END_VAR".data ∨ matchKeyword upper "END_STRUCT".data then
            varEndStep s0 upper
          else if "VAR".data.isPrefixOf upper ∧ (subIndex "CONSTANT".data upper).isSome ∧
              ¬ ("VAR_".data.isPrefixOf upper) then
            varConstStep s0
          else
            match varOpens.find? (fun k => matchKeyword upper k) with
            | some kw => varOpenStep s0 kw
            | none =>
              if ¬ s0.currentVarSection.isEmpty ∧ s0.afterBegin = false then
                (declStep s0 origLine, [], [])
              else if s0.afterBegin then codeStep s0 trimmed upper
              else (s0, [], [])

/-! ### Per-line preprocessing stages (parser.ts:110-138) -/

/-- Stage 1 (parser.ts:111): while inside a multi-line block comment,
blank through a terminator when present (`none` = skip the line). -/
def resumeCommentStage (l : Str) : Option Str :=
  match subIndex "*)".data l with
  | some e => some (spaces (e + 2) ++ l.drop (e + 2))
  | none => none

/-- Stage 3 (parser.ts:123): an unterminated block-comment opener
truncates the line there and raises the in-comment flag. -/
def openCommentStage (l : Str) : Str × Bool :=
  match subIndex "(*".data l with
  | some i => (l.take i, true)
  | none => (l, false)

/-- Stage 4 (parser.ts:129): truncate at a line-comment marker outside
string literals. -/
def lineCommentStage (l : Str) : Str :=
  match lineCommentIndex l with
  | some i => l.take i
  | none => l

/-- Stages 2-4 followed by classification. -/
def stripStages (s : ScanState) (l0 : Str) : ScanState × List Event × List Event :=
  let l1 := stripBlockComments l0
  let oc := openCommentStage l1
  let s' := if oc.2 then { s with inBlockComment := true } else s
  classify s' (lineCommentStage oc.1)

/-- Process one physical line (loop body of `parse`, parser.ts:107-346);
the line counter advances on every path. -/
def processLine (s : ScanState) (raw : Str) : ScanState × List Event × List Event :=
  let out :=
    if s.inBlockComment then
      match resumeCommentStage raw with
      | some l0 => stripStages { s with inBlockComment := false } l0
      | none => (s, [], [])
    else stripStages s raw
  ({ out.1 with lineIdx := s.lineIdx + 1 }, out.2)

def initState : ScanState :=
  { blocks := [], vars := [], used := [], unmatchedCloses := [],
    exitOutside := [], blockStack := [], varStack := [], controlStack := [],
    currentBlock := none, currentVarSection := [], inBlockComment := false,
    afterBegin := false, lineIdx := 0 }

/-- Run `processLine` over the lines in order (the `for` loop of
`parse`), accumulating both event traces. -/
def scanLines (s : ScanState) : List Str → ScanState × List Event × List Event
  | [] => (s, [], [])
  | raw :: rest =>
    let out := processLine s raw
    let tail := scanLines out.1 rest
    (tail.1, out.2.1 ++ tail.2.1, out.2.2 ++ tail.2.2)

/-- `parse` (parser.ts:87): scan all lines and flush the remaining stack
frames (bottom-to-top, as the source spreads the arrays) into
`unmatchedOpens`. -/
def parse (text : Str) : ParseResult :=
  let s := (scanLines initState (splitLines text)).1
  { blocks := s.blocks, vars := s.vars, usedVariables := s.used,
    unmatchedOpens := s.blockStack.reverse ++ s.varStack.reverse ++ s.controlStack.reverse,
    unmatchedCloses := s.unmatchedCloses,
    exitOutsideLoop := s.exitOutside }

/-! ### Well-formed input: exact delimiter matching over the event trace

A text is well formed when, family by family, the trace of opener and
closer occurrences is balanced with each closer matching its own
opener.  This is the property quantified over in the spec's first
testable property. -/

/-- Does `closeKw` exactly close `openKw` within family `f`?  Block and
control pairs come from the source's tables; in the variable family
`STRUCT` is closed by `END_STRUCT` and every `VAR*` section by
`END_VAR`. -/
def famMatches (f : Family) (openKw closeKw : Str) : Bool :=
  match f with
  | .blockF => blockPairOf openKw = some closeKw
  | .varF => (if openKw = "STRUCT".data then "END_STRUCT".data else "END_VAR".data) = closeKw
  | .ctrlF => controlEndToOpen closeKw = some openKw

/-- Dyck-style matcher for one family over an event trace: openers push,
a closer must exactly match the top opener; `none` on any mismatch. -/
def runMatcher (f : Family) : List Event → List Str → Option (List Str)
  | [], st => some st
  | e :: rest, st =>
    if e.fam = f then
      if e.opens then runMatcher f rest (e.kw :: st)
      else
        match st with
        | top :: st' =>
          if famMatches f top e.kw then runMatcher f rest st' else none
        | [] => none
    else runMatcher f rest st

/-- A trace is balanced for family `f` when the matcher consumes it from
the empty stack and ends on the empty stack. -/
def balanced (f : Family) (tr : List Event) : Bool :=
  runMatcher f tr [] = some []

/-- Well-formedness of an input text, per the scanner's own opener and
closer recognition. -/
def wellFormed (text : Str) : Bool :=
  let tr := (scanLines initState (splitLines text)).2.1
  balanced .blockF tr ∧ balanced .varF tr ∧ balanced .ctrlF tr

/-- Modelled from the spec: well-formedness where, as in the spec's
uniform keyword-matching rule (spec sections 4.1 and 8), an IF opener is
recognized whenever the trimmed line matches the keyword `IF` (so also
when a tab or semicolon follows), instead of the code's narrower
space-only test. -/
def specWellFormed (text : Str) : Bool :=
  let tr := (scanLines initState (splitLines text)).2.2
  balanced .blockF tr ∧ balanced .varF tr ∧ balanced .ctrlF tr

/-! ### `src/rules.ts` — the diagnostic rule engine -/

/-- `vscode.DiagnosticSeverity`. -/
inductive Severity where
  | Error
  | Warning
  | Information
  | Hint
  deriving DecidableEq, Repr

/-- `LintDiagnostic` (rules.ts:13). -/
structure LintDiagnostic where
  line : Nat
  col : Nat
  endCol : Option Nat
  message : Str
  severity : Severity
  code : Str
  deriving DecidableEq, Repr

/-- JS `s.replace(pat, rep)` with a plain-string pattern: replace the
first occurrence. -/
def replaceFirst (pat rep s : Str) : Str :=
  match subIndex pat s with
  | some i => s.take i ++ rep ++ s.drop (i + pat.length)
  | none => s

/-- `'x'`-style quoting used throughout the diagnostic messages. -/
def quoted (s : Str) : Str := sq :: s ++ [sq]

/-- `ruleUnmatchedControlFlow` (rules.ts:44), SCL001. -/
def ruleUnmatchedControlFlow (r : ParseResult) : List LintDiagnostic :=
  (r.unmatchedOpens.flatMap fun e =>
    if ["IF".data, "FOR".data, "WHILE".data, "REPEAT".data, "CASE".data,
        "REGION".data].contains e.keyword then
      [{ line := e.line, col := 0, endCol := none,
         message := quoted e.keyword ++ " has no matching ".data ++
           quoted ("END_".data ++ e.keyword),
         severity := .Error, code := "SCL001".data }]
    else []) ++
  (r.unmatchedCloses.flatMap fun e =>
    if "END_".data.isPrefixOf e.keyword ∧
        ¬ ("END_FUNCTION".data.isPrefixOf e.keyword) ∧
        ¬ ("END_DATA".data.isPrefixOf e.keyword) ∧
        ¬ ("END_ORGANIZATION".data.isPrefixOf e.keyword) ∧
        ¬ ("END_TYPE".data.isPrefixOf e.keyword) ∧
        e.keyword ≠ "END_VAR".data ∧ e.keyword ≠ "END_STRUCT".data then
      [{ line := e.line, col := 0, endCol := none,
         message := quoted e.keyword ++ " without matching ".data ++
           quoted (replaceFirst "END_".data [] e.keyword),
         severity := .Error, code := "SCL001".data }]
    else [])

/-- `ruleUnmatchedVarSections` (rules.ts:83), SCL002. -/
def ruleUnmatchedVarSections (r : ParseResult) : List LintDiagnostic :=
  (r.unmatchedOpens.flatMap fun e =>
    if "VAR".data.isPrefixOf e.keyword ∨ e.keyword = "STRUCT".data then
      [{ line := e.line, col := 0, endCol := none,
         message := quoted e.keyword ++ " has no matching ".data ++
           quoted (if e.keyword = "STRUCT".data then "END_STRUCT".data else "END_VAR".data),
         severity := .Error, code := "SCL002".data }]
    else []) ++
  (r.unmatchedCloses.flatMap fun e =>
    if e.keyword = "END_VAR".data ∨ e.keyword = "END_STRUCT".data then
      [{ line := e.line, col := 0, endCol := none,
         message := quoted e.keyword ++ " without matching opening declaration".data,
         severity := .Error, code := "SCL002".data }]
    else [])

/-- `ruleUnmatchedBlocks` (rules.ts:116), SCL003. -/
def ruleUnmatchedBlocks (r : ParseResult) : List LintDiagnostic :=
  (r.unmatchedOpens.flatMap fun e =>
    if ["FUNCTION_BLOCK".data, "FUNCTION".data, "ORGANIZATION_BLOCK".data,
        "DATA_BLOCK".data, "TYPE".data].contains e.keyword then
      [{ line := e.line, col := 0, endCol := none,
         message := quoted e.keyword ++ " has no matching ".data ++
           quoted ("END_".data ++ e.keyword),
         severity := .Error, code := "SCL003".data }]
    else []) ++
  (r.unmatchedCloses.flatMap fun e =>
    if ["END_FUNCTION_BLOCK".data, "END_FUNCTION".data, "END_ORGANIZATION_BLOCK".data,
        "END_DATA_BLOCK".data, "END_TYPE".data].contains e.keyword then
      [{ line := e.line, col := 0, endCol := none,
         message := quoted e.keyword ++ " without matching block declaration".data,
         severity := .Error, code := "SCL003".data }]
    else [])

/-- Grouping of `ruleDuplicateVariables` (rules.ts:152): variables by
owning block, then by lower-cased name, collecting locations in order. -/
def groupVars (vs : List VariableDecl) : List (Str × List (Str × List (Nat × Nat))) :=
  vs.foldl
    (fun m v =>
      let inner := (mapGet m v.block).getD []
      let lower := lowerStr v.name
      let locs := (mapGet inner lower).getD []
      mapSet m v.block (mapSet inner lower (locs ++ [(v.line, v.col)])))
    []

/-- SCL004 message text. -/
def dupMsg (name : Str) (firstLine : Nat) : Str :=
  "Duplicate variable ".data ++ quoted name ++
    " (first declared on line ".data ++ natStr (firstLine + 1) ++ ")".data

/-- Diagnostics for one (lower-cased name, locations) group of
`ruleDuplicateVariables`: every location after the first is marked,
referencing the first location's line. -/
def dupDiags (nl : Str × List (Nat × Nat)) : List LintDiagnostic :=
  match nl.2 with
  | first :: rest =>
    rest.map fun loc =>
      { line := loc.1, col := loc.2, endCol := none,
        message := dupMsg nl.1 first.1,
        severity := .Error, code := "SCL004".data }
  | [] => []

/-- `ruleDuplicateVariables` (rules.ts:148), SCL004: every occurrence
after the first in a (block, lower-cased name) group. -/
def ruleDuplicateVariables (r : ParseResult) : List LintDiagnostic :=
  (groupVars r.vars).flatMap fun bv => bv.2.flatMap dupDiags

/-- `ruleExitOutsideLoop` (rules.ts:184), SCL005. -/
def ruleExitOutsideLoop (r : ParseResult) : List LintDiagnostic :=
  r.exitOutsideLoop.map fun e =>
    { line := e.line, col := 0, endCol := none,
      message := quoted e.keyword ++ " used outside of a FOR/WHILE/REPEAT loop".data,
      severity := .Error, code := "SCL005".data }

/-- SCL101 message text. -/
def unusedMsg (name : Str) : Str :=
  "Variable ".data ++ quoted name ++ " is declared but never used".data

/-- `ruleUnusedVariables` (rules.ts:196), SCL101: skip variables of
data/user-type blocks and output sections, then warn when the name is
absent from the usage set. -/
def ruleUnusedVariables (r : ParseResult) : List LintDiagnostic :=
  r.vars.flatMap fun v =>
    let block := r.blocks.find? (fun b => b.name = v.block)
    let isDataOrType : Bool :=
      match block with
      | some b => b.type = "DATA_BLOCK".data ∨ b.type = "TYPE".data
      | none => false
    if isDataOrType then []
    else if v.varSection = "VAR_OUTPUT".data then []
    else if r.usedVariables.contains (lowerStr v.name) then []
    else
      [{ line := v.line, col := v.col, endCol := none,
         message := unusedMsg v.name,
         severity := .Warning, code := "SCL101".data }]

/-- `block.name || block.type`. -/
def blockLabel (b : BlockDecl) : Str :=
  if b.name.isEmpty then b.type else b.name

/-- `ruleMissingVersion` (rules.ts:224), SCL102. -/
def ruleMissingVersion (r : ParseResult) : List LintDiagnostic :=
  r.blocks.flatMap fun b =>
    if b.hasVersion then []
    else
      [{ line := b.line, col := 0, endCol := none,
         message := "Block ".data ++ quoted (blockLabel b) ++
           " has no VERSION declaration".data,
         severity := .Warning, code := "SCL102".data }]

/-- `ruleMissingPragma` (rules.ts:244), SCL103. -/
def ruleMissingPragma (r : ParseResult) : List LintDiagnostic :=
  r.blocks.flatMap fun b =>
    if b.type = "TYPE".data then []
    else if b.hasPragma then []
    else
      [{ line := b.line, col := 0, endCol := none,
         message := "Block ".data ++ quoted (blockLabel b) ++
           " has no ".data ++ [obrace] ++ " S7_Optimized_Access ".data ++
           [Char.ofNat 125] ++ " pragma".data,
         severity := .Warning, code := "SCL103".data }]

/-- Diagnostic for one entry of a `hasCaseElse` map: a warning at the
CASE line when no ELSE was recorded. -/
def caseElseDiag (e : Nat × Bool) : List LintDiagnostic :=
  if e.2 then []
  else
    [{ line := e.1, col := 0, endCol := none,
       message := "CASE statement has no ELSE branch".data,
       severity := .Warning, code := "SCL104".data }]

/-- `ruleCaseWithoutElse` (rules.ts:267), SCL104. -/
def ruleCaseWithoutElse (r : ParseResult) : List LintDiagnostic :=
  r.blocks.flatMap fun b => b.hasCaseElse.flatMap caseElseDiag

/-- `ruleEmptyBlock` (rules.ts:289), SCL105. -/
def ruleEmptyBlock (r : ParseResult) : List LintDiagnostic :=
  r.blocks.flatMap fun b =>
    if b.type = "DATA_BLOCK".data ∨ b.type = "TYPE".data then []
    else if b.hasBegin ∧ ¬ b.hasCode then
      [{ line := b.line, col := 0, endCol := none,
         message := "Block ".data ++ quoted (blockLabel b) ++
           " has an empty BEGIN section".data,
         severity := .Warning, code := "SCL105".data }]
    else []

/-- `prefixMap` of `ruleNamingConvention` (rules.ts:315). -/
def prefixMapOf (t : Str) : Option Str :=
  if t = "FUNCTION_BLOCK".data then some "FB_".data
  else if t = "FUNCTION".data then some "FC_".data
  else if t = "DATA_BLOCK".data then some "DB_".data
  else none

/-- `ruleNamingConvention` (rules.ts:312), SCL201. -/
def ruleNamingConvention (r : ParseResult) : List LintDiagnostic :=
  r.blocks.flatMap fun b =>
    match prefixMapOf b.type with
    | some expected =>
      if ¬ b.name.isEmpty ∧ ¬ (expected.isPrefixOf b.name) ∧
          ¬ ("UDT_".data.isPrefixOf b.name) then
        [{ line := b.line, col := 0, endCol := none,
           message := "Block ".data ++ quoted b.name ++
             " does not follow naming convention ".data ++
             quoted (expected ++ "...".data),
           severity := .Hint, code := "SCL201".data }]
      else []
    | none => []

/-- `runRules` (rules.ts:24): concatenation of all rule outputs in the
source's order. -/
def runRules (r : ParseResult) : List LintDiagnostic :=
  ruleUnmatchedControlFlow r ++ ruleUnmatchedVarSections r ++
  ruleUnmatchedBlocks r ++ ruleDuplicateVariables r ++
  ruleExitOutsideLoop r ++ ruleUnusedVariables r ++
  ruleMissingVersion r ++ ruleMissingPragma r ++
  ruleCaseWithoutElse r ++ ruleEmptyBlock r ++
  ruleNamingConvention r

/-! ### Shared lemmas -/

theorem sbcAux_length (mode : Bool) (l : Str) : (sbcAux mode l).length = l.length := by
  induction mode, l using sbcAux.induct <;> simp [sbcAux, *]

theorem stripBlockComments_length (l : Str) :
    (stripBlockComments l).length = l.length := sbcAux_length false l

theorem stripQuotedAux_length (q : Char) (mode : Bool) (l : Str) :
    (stripQuotedAux q mode l).length = l.length := by
  induction mode, l using stripQuotedAux.induct q <;> simp_all [stripQuotedAux]

theorem stripStrings_length (l : Str) : (stripStrings l).length = l.length := by
  simp [stripStrings, stripQuoted, stripQuotedAux_length]

theorem subIndex_bound {pat l : Str} {i : Nat} (h : subIndex pat l = some i) :
    i + pat.length ≤ l.length := by
  induction l generalizing i with
  | nil =>
    simp only [subIndex] at h
    split at h <;> simp_all [List.isEmpty_iff]
  | cons c t ih =>
    simp only [subIndex] at h
    split at h
    · rename_i hp
      cases h
      simpa [List.isPrefixOf_iff_prefix] using (List.isPrefixOf_iff_prefix.mp hp).length_le
    · rcases Option.map_eq_some'.mp h with ⟨j, hj, rfl⟩
      have := ih hj
      simp only [List.length_cons]
      omega

theorem resumeCommentStage_length {l l' : Str} (h : resumeCommentStage l = some l') :
    l'.length = l.length := by
  unfold resumeCommentStage at h
  split at h
  · rename_i e he
    cases h
    have h2 : e + 2 ≤ l.length := by simpa using subIndex_bound he
    simp only [List.length_append, List.length_drop, spaces, List.length_replicate]
    omega
  · cases h

theorem matchKeyword_starts {u k : Str} (h : matchKeyword u k = true) : k <+: u := by
  simp only [matchKeyword, decide_eq_true_eq] at h
  rcases h with h | h | h | h | h
  · exact h ▸ List.prefix_refl k
  · exact h ▸ List.prefix_append k [';']
  · exact List.IsPrefix.trans (List.prefix_append k [' ']) (List.isPrefixOf_iff_prefix.mp h)
  · exact List.IsPrefix.trans (List.prefix_append k ['\t']) (List.isPrefixOf_iff_prefix.mp h)
  · exact List.IsPrefix.trans (List.prefix_append k [';']) (List.isPrefixOf_iff_prefix.mp h)

theorem not_prefix_of_conflict {u a b : Str} (ha : a <+: u)
    (h1 : ¬ a <+: b) (h2 : ¬ b <+: a) : ¬ b <+: u := by
  intro hb
  rcases Nat.le_total a.length b.length with hle | hle
  · exact h1 (List.prefix_of_prefix_length_le ha hb hle)
  · exact h2 (List.prefix_of_prefix_length_le hb ha hle)

/-- Keyword matching fails when the line starts with a keyword that is
prefix-incompatible with the candidate. -/
theorem matchKeyword_false_of_conflict {u k k' : Str} (hk : k <+: u)
    (h1 : ¬ k <+: k') (h2 : ¬ k' <+: k) : matchKeyword u k' = false := by
  cases hmk : matchKeyword u k' with
  | false => rfl
  | true => exact absurd (matchKeyword_starts hmk) (not_prefix_of_conflict hk h1 h2)

/-! ### Claim C3 — blanking versus truncation in the preprocessing stages -/

/-- C3, counterexample: the claim says every preprocessing stage
replaces removed characters with an equal count of spaces, keeping the
line length unchanged; but the line-comment stage truncates: on
`x := 1; // c` it returns a strictly shorter line (and the unterminated
block-comment-opener stage truncates `x := 1; (* c` likewise). -/
theorem c3_counterexample :
    (lineCommentStage ("x := 1; // c".data)).length ≠ ("x := 1; // c".data).length ∧
    ((openCommentStage ("x := 1; (* c".data)).1).length ≠ ("x := 1; (* c".data).length := by
  decide

/-- C3, amended: the multi-line comment-terminator stage, the same-line
block-comment stage and the string-literal stage are length-preserving
(blanking with spaces); the unterminated-opener stage and the
line-comment stage instead truncate, producing a prefix of their input,
so column offsets of the retained characters remain valid. -/
theorem c3_amended :
    (∀ l l', resumeCommentStage l = some l' → l'.length = l.length) ∧
    (∀ l, (stripBlockComments l).length = l.length) ∧
    (∀ l, (stripStrings l).length = l.length) ∧
    (∀ l, (openCommentStage l).1 <+: l) ∧
    (∀ l, lineCommentStage l <+: l) := by
  refine ⟨fun l l' h => resumeCommentStage_length h,
    stripBlockComments_length, stripStrings_length, ?_, ?_⟩
  · intro l
    unfold openCommentStage
    split
    · exact List.take_prefix _ l
    · exact List.prefix_refl l
  · intro l
    unfold lineCommentStage
    split
    · exact List.take_prefix _ l
    · exact List.prefix_refl l

/-! ### Claim C4 — variables whose owning block matches no BlockDecl -/

/-- C4, counterexample: the claim says a `VariableDecl` whose owning
block name matches no `BlockDecl` is excluded from the unused-variable
rule; but on a text whose `VAR` section lies outside any block the
declared variable (owning block name empty, no block of that name in
the model) still receives an unused-variable warning. -/
theorem c4_counterexample :
    (parse ("FUNCTION_BLOCK \"FB_A\"\nEND_FUNCTION_BLOCK\nVAR\nx : Int;\nEND_VAR".data)).vars.map
        (·.block) = [[]] ∧
    (parse ("FUNCTION_BLOCK \"FB_A\"\nEND_FUNCTION_BLOCK\nVAR\nx : Int;\nEND_VAR".data)).blocks.map
        (·.name) = ["FB_A".data] ∧
    ruleUnusedVariables
        (parse ("FUNCTION_BLOCK \"FB_A\"\nEND_FUNCTION_BLOCK\nVAR\nx : Int;\nEND_VAR".data)) =
      [{ line := 3, col := 0, endCol := none, message := unusedMsg "x".data,
         severity := .Warning, code := "SCL101".data }] := by
  decide

/-- C4, amended: a variable whose owning block name matches no
`BlockDecl` is not excluded from the unused-variable rule — the failed
lookup only means the data-block/user-type exemption cannot apply — so
if it is not an output variable and its name is unreferenced, an
unused-variable warning for it is in the rule's output (and every rule
is a total function, so none can throw). -/
theorem c4_amended (r : ParseResult) (v : VariableDecl) (hv : v ∈ r.vars)
    (hb : ∀ b ∈ r.blocks, b.name ≠ v.block)
    (hs : v.varSection ≠ "VAR_OUTPUT".data)
    (hu : lowerStr v.name ∉ r.usedVariables) :
    ({ line := v.line, col := v.col, endCol := none, message := unusedMsg v.name,
       severity := .Warning, code := "SCL101".data } : LintDiagnostic) ∈
      ruleUnusedVariables r := by
  unfold ruleUnusedVariables
  refine List.mem_flatMap.mpr ⟨v, hv, ?_⟩
  have hfind : r.blocks.find? (fun b => b.name = v.block) = none :=
    List.find?_eq_none.mpr (by
      intro b hbm
      simpa using hb b hbm)
  simp [hfind, hs, hu]

/-- C4, witness for the amended theorem at a concrete parse. -/
theorem c4_amended_witness :
    ({ line := 3, col := 0, endCol := none, message := unusedMsg "x".data,
       severity := .Warning, code := "SCL101".data } : LintDiagnostic) ∈
      ruleUnusedVariables
        (parse ("FUNCTION_BLOCK \"FB_A\"\nEND_FUNCTION_BLOCK\nVAR\nx : Int;\nEND_VAR".data)) := by
  have hv : ({ name := "x".data, type := "Int".data, varSection := "VAR".data,
               block := [], line := 3, col := 0 } : VariableDecl) ∈
      (parse ("FUNCTION_BLOCK \"FB_A\"\nEND_FUNCTION_BLOCK\nVAR\nx : Int;\nEND_VAR".data)).vars := by
    decide
  exact c4_amended _ _ hv (by decide) (by decide) (by decide)

/-! ### Claim C2 — comment markers inside string literals -/

/-- One step of the line-comment scan, stated with a symbolic tail. -/
theorem lciAux_cons (inS : Bool) (sc : Char) (idx : Nat) (c : Char) (t : Str)
    (ht : t ≠ []) :
    lciAux inS sc idx (c :: t) =
      if inS then
        (if c = sc then lciAux false sc (idx + 1) t else lciAux true sc (idx + 1) t)
      else if c = sq ∨ c = '"' then lciAux true c (idx + 1) t
      else if c = '/' ∧ t.head? = some '/' then some idx
      else lciAux false sc (idx + 1) t := by
  cases t with
  | nil => exact absurd rfl ht
  | cons c2 t' => simp [lciAux]

/-- A character that cannot open a string or start `//` just advances
the line-comment scan. -/
theorem lciAux_safe (sc : Char) (idx : Nat) (c : Char) (t : Str) (ht : t ≠ [])
    (h1 : c ≠ sq) (h2 : c ≠ '"') (h3 : c ≠ '/') :
    lciAux false sc idx (c :: t) = lciAux false sc (idx + 1) t := by
  rw [lciAux_cons false sc idx c t ht]
  simp [h1, h2, h3]

/-- A single quote opens string state in the line-comment scan. -/
theorem lciAux_quote (sc : Char) (idx : Nat) (t : Str) (ht : t ≠ []) :
    lciAux false sc idx (sq :: t) = lciAux true sq (idx + 1) t := by
  rw [lciAux_cons false sc idx sq t ht]
  simp

/-- While inside a single-quoted literal the scan ignores everything,
including `//`, up to the closing quote; with only `;` after the
literal the scan then ends without finding a marker. -/
theorem lciAux_string_skip (b : Str) (hb : sq ∉ b) (idx : Nat) :
    lciAux true sq idx (b ++ [sq, ';']) = none := by
  induction b generalizing idx with
  | nil => simp [lciAux]
  | cons c b' ih =>
    rw [List.cons_append, lciAux_cons true sq idx c _ (by simp)]
    have hc : c ≠ sq := fun h => hb (h ▸ List.mem_cons_self c b')
    simp only [if_pos rfl, if_neg hc]
    exact ih (fun h => hb (List.mem_cons_of_mem c h)) (idx + 1)

/-- C2, counterexample: the claim says a block-comment opener inside a
string literal does not start comment-skipping, but on the line
`x := 'a(*';` the scanner raises the in-comment flag, and the
`FUNCTION_BLOCK` opener on the following line is swallowed entirely. -/
theorem c2_counterexample :
    (processLine initState
        ("x := ".data ++ [sq] ++ "a(*".data ++ [sq] ++ [';'])).1.inBlockComment = true ∧
    (parse ("x := ".data ++ [sq] ++ "a(*".data ++ [sq] ++
        ";\nFUNCTION_BLOCK \"FB_B\"".data)).blocks = [] := by
  decide

/-- State of the line-comment scan after a list of characters: the
(inString, stringChar) pair, or `none` when a marker was already found
inside that list. -/
def lciState (inS : Bool) (sc : Char) : Str → Option (Bool × Char)
  | [] => some (inS, sc)
  | c :: t =>
    if inS then
      if c = sc then lciState false sc t else lciState true sc t
    else
      if c = sq ∨ c = '"' then lciState true c t
      else if c = '/' ∧ t.head? = some '/' then none
      else lciState false sc t

/-- The scan state is not inside a string literal (the prefix either
closed every literal it opened, or already holds a marker). -/
def notInString : Option (Bool × Char) → Bool
  | some (true, _) => false
  | _ => true

theorem lciState_cons (inS : Bool) (sc : Char) (c : Char) (t : Str) :
    lciState inS sc (c :: t) =
      if inS then
        (if c = sc then lciState false sc t else lciState true sc t)
      else if c = sq ∨ c = '"' then lciState true c t
      else if c = '/' ∧ t.head? = some '/' then none
      else lciState false sc t := rfl

/-- An opening quote puts the scan into string state. -/
theorem lciAux_enter (sc q : Char) (hq : q = sq ∨ q = '"') (idx : Nat) (d : Char) (t : Str) :
    lciAux false sc idx (q :: d :: t) = lciAux true q (idx + 1) (d :: t) := by
  rcases hq with rfl | rfl <;> simp [lciAux]

/-- The closing quote leaves string state. -/
theorem lciAux_close (q : Char) (idx : Nat) (post : Str) :
    lciAux true q idx (q :: post) = lciAux false q (idx + 1) post := by
  cases post with
  | nil => simp [lciAux]
  | cons p ps => simp [lciAux]

/-- While inside a `q`-quoted literal the scan ignores every character
(including `//`) up to the closing quote. -/
theorem lciAux_skip (q : Char) (mid : Str) (hm : q ∉ mid) (idx : Nat) (rest : Str) :
    lciAux true q idx (mid ++ rest) = lciAux true q (idx + mid.length) rest := by
  induction mid generalizing idx with
  | nil => simp
  | cons c mid2 ih =>
    have hc : c ≠ q := fun h => hm (by rw [← h]; exact List.mem_cons_self c mid2)
    rw [List.cons_append]
    cases hmr : mid2 ++ rest with
    | nil =>
      obtain ⟨h1, h2⟩ := List.append_eq_nil.mp hmr
      subst h1
      subst h2
      simp [lciAux]
    | cons d t2 =>
      simp only [lciAux]
      rw [if_neg hc]
      rw [← hmr, ih (fun hq2 => hm (List.mem_cons_of_mem c hq2)) (idx + 1)]
      have hidx : idx + 1 + mid2.length = idx + (c :: mid2).length := by
        simp
        omega
      rw [hidx]
      simp

/-- A whole `q`-quoted literal is skipped from any not-in-string state,
whatever its content: the scan resumes right after the closing quote. -/
theorem lciAux_literal (sc q : Char) (hq : q = sq ∨ q = '"') (mid : Str) (hm : q ∉ mid)
    (idx : Nat) (post : Str) :
    lciAux false sc idx (q :: (mid ++ q :: post)) =
      lciAux false q (idx + mid.length + 2) post := by
  cases hmp : mid ++ q :: post with
  | nil => exact absurd hmp (by simp)
  | cons d t =>
    rw [lciAux_enter sc q hq idx d t, ← hmp, lciAux_skip q mid hm, lciAux_close]
    have hidx : idx + 1 + mid.length + 1 = idx + mid.length + 2 := by omega
    rw [hidx]

/-- The content of a string literal is invisible to the line-comment
scan: it can be replaced by blanks without changing the result. -/
theorem lciAux_literal_irrel (sc q : Char) (hq : q = sq ∨ q = '"') (mid : Str)
    (hm : q ∉ mid) (idx : Nat) (post : Str) :
    lciAux false sc idx (q :: (mid ++ q :: post)) =
      lciAux false sc idx (q :: (spaces mid.length ++ q :: post)) := by
  have hsp : q ∉ spaces mid.length := by
    intro hq2
    have h2 : ¬ mid = [] ∧ q = ' ' := by simpa [spaces] using hq2
    rcases hq with rfl | rfl <;> exact absurd h2.2 (by decide)
  rw [lciAux_literal sc q hq mid hm idx post,
    lciAux_literal sc q hq (spaces mid.length) hsp idx post]
  simp [spaces]

/-- Two continuations with equal head behave equally after any common
prefix whose scan does not end inside a string literal. -/
theorem lciAux_append_congr (X Y : Str) (hne : X.head? = Y.head?)
    (hXY : ∀ (sc2 : Char) (idx2 : Nat), lciAux false sc2 idx2 X = lciAux false sc2 idx2 Y)
    (pre : Str) :
    ∀ (inS : Bool) (sc : Char) (idx : Nat),
      (∀ sc2, lciState inS sc pre ≠ some (true, sc2)) →
      lciAux inS sc idx (pre ++ X) = lciAux inS sc idx (pre ++ Y) := by
  by_cases hXnil : X = []
  · have hYnil : Y = [] := by
      rw [hXnil] at hne
      simp only [List.head?_nil] at hne
      exact List.head?_eq_none_iff.mp hne.symm
    intro inS sc idx hstr
    rw [hXnil, hYnil]
  · have hYnil : Y ≠ [] := by
      intro hy
      rw [hy] at hne
      simp only [List.head?_nil] at hne
      exact hXnil (List.head?_eq_none_iff.mp hne)
    induction pre with
    | nil =>
      intro inS sc idx hstr
      by_cases hIn : inS = true
      · subst hIn
        exact absurd rfl (hstr sc)
      · have hIn2 : inS = false := by revert hIn; cases inS <;> simp
        subst hIn2
        exact hXY sc idx
    | cons c t ih =>
      intro inS sc idx hstr
      have htX : t ++ X ≠ [] := by simp [hXnil]
      have htY : t ++ Y ≠ [] := by simp [hYnil]
      rw [List.cons_append, List.cons_append,
          lciAux_cons inS sc idx c (t ++ X) htX, lciAux_cons inS sc idx c (t ++ Y) htY]
      by_cases hIn : inS = true
      · rw [if_pos hIn, if_pos hIn]
        by_cases hc : c = sc
        · rw [if_pos hc, if_pos hc]
          refine ih false sc (idx + 1) ?_
          intro sc2 hcontra
          apply hstr sc2
          rw [lciState_cons, if_pos hIn, if_pos hc]
          exact hcontra
        · rw [if_neg hc, if_neg hc]
          refine ih true sc (idx + 1) ?_
          intro sc2 hcontra
          apply hstr sc2
          rw [lciState_cons, if_pos hIn, if_neg hc]
          exact hcontra
      · rw [if_neg hIn, if_neg hIn]
        by_cases hqc : c = sq ∨ c = '"'
        · rw [if_pos hqc, if_pos hqc]
          refine ih true c (idx + 1) ?_
          intro sc2 hcontra
          apply hstr sc2
          rw [lciState_cons, if_neg hIn, if_pos hqc]
          exact hcontra
        · rw [if_neg hqc, if_neg hqc]
          have hh : (t ++ X).head? = (t ++ Y).head? := by
            cases t with
            | nil => simpa using hne
            | cons a r => simp
          by_cases hmk : c = '/' ∧ (t ++ X).head? = some '/'
          · rw [if_pos hmk, if_pos ⟨hmk.1, hh.symm.trans hmk.2⟩]
          · rw [if_neg hmk, if_neg (fun hy => hmk ⟨hy.1, hh.trans hy.2⟩)]
            refine ih false sc (idx + 1) ?_
            intro sc2 hcontra
            apply hstr sc2
            have hmk2 : ¬ (c = '/' ∧ t.head? = some '/') := by
              intro hcon
              apply hmk
              refine ⟨hcon.1, ?_⟩
              cases t with
              | nil => simp at hcon
              | cons a r => simpa using hcon.2
            rw [lciState_cons, if_neg hIn, if_neg hqc, if_neg hmk2]
            exact hcontra

/-- C2, amended: the line-comment scan is string-aware for single- and
double-quoted literals alike — on any line `pre ++ q ++ mid ++ q ++ post`
whose opening quote `q` (either kind) is reached outside a string, the
scan result is the same as with the literal interior `mid` blanked, so
a `//` inside the literal never truncates the line, and when the rest of
the line holds no marker the line-comment stage leaves the line
unchanged; but a block-comment opener inside a string literal does start
comment-skipping: on `x := 'a(*b';` the scanner raises the in-comment
flag, because block-comment stripping is not string-aware. -/
theorem c2_amended :
    (∀ (pre mid post : Str) (q : Char), (q = sq ∨ q = '"') → q ∉ mid →
      notInString (lciState false ' ' pre) = true →
      lineCommentIndex (pre ++ q :: (mid ++ q :: post)) =
        lineCommentIndex (pre ++ q :: (spaces mid.length ++ q :: post)) ∧
      (lineCommentIndex (pre ++ q :: (spaces mid.length ++ q :: post)) = none →
        lineCommentStage (pre ++ q :: (mid ++ q :: post)) =
          pre ++ q :: (mid ++ q :: post))) ∧
    (processLine initState
        ("x := ".data ++ [sq] ++ "a(*b".data ++ [sq] ++ [';'])).1.inBlockComment = true := by
  constructor
  · intro pre mid post q hq hm hpre
    have hpre2 : ∀ sc2, lciState false ' ' pre ≠ some (true, sc2) := by
      intro sc2 hcon
      rw [hcon] at hpre
      simp [notInString] at hpre
    have hmain : lineCommentIndex (pre ++ q :: (mid ++ q :: post)) =
        lineCommentIndex (pre ++ q :: (spaces mid.length ++ q :: post)) := by
      unfold lineCommentIndex
      exact lciAux_append_congr (q :: (mid ++ q :: post))
        (q :: (spaces mid.length ++ q :: post)) rfl
        (fun sc2 idx2 => lciAux_literal_irrel sc2 q hq mid hm idx2 post)
        pre false ' ' 0 hpre2
    refine ⟨hmain, ?_⟩
    intro hnone
    unfold lineCommentStage
    rw [hmain, hnone]
  · decide

/-- C2, witness for the amended theorem at both quote kinds: the literal
content `a//b` contains a line-comment marker and the stage leaves both
the single-quoted and the double-quoted line intact. -/
theorem c2_amended_witness :
    lineCommentStage ("x := ".data ++ sq :: ("a//b".data ++ sq :: [';'])) =
      "x := ".data ++ sq :: ("a//b".data ++ sq :: [';']) ∧
    lineCommentStage ("y := ".data ++ '"' :: ("a//b".data ++ '"' :: [';'])) =
      "y := ".data ++ '"' :: ("a//b".data ++ '"' :: [';']) :=
  ⟨(c2_amended.1 ("x := ".data) ("a//b".data) [';'] sq (Or.inl rfl) (by decide)
      (by decide)).2 (by decide),
   (c2_amended.1 ("y := ".data) ("a//b".data) [';'] '"' (Or.inr rfl) (by decide)
      (by decide)).2 (by decide)⟩

/-! ### Classification dispatch lemmas -/

/-- The trimmed active line `classify` works on. -/
def trimmedOf (orig : Str) : Str := trimL (stripStrings orig)

/-- The upper-cased trimmed active line `classify` works on. -/
def upperOf (orig : Str) : Str := upperStr (trimmedOf orig)

theorem markCurrent_controlStack (s : ScanState) (f : BlockDecl → BlockDecl) :
    (markCurrent s f).controlStack = s.controlStack := by
  unfold markCurrent
  split <;> rfl

theorem markCurrent_currentBlock (s : ScanState) (f : BlockDecl → BlockDecl) :
    (markCurrent s f).currentBlock = s.currentBlock := by
  unfold markCurrent
  split <;> simp_all

theorem markCurrent_exitOutside (s : ScanState) (f : BlockDecl → BlockDecl) :
    (markCurrent s f).exitOutside = s.exitOutside := by
  unfold markCurrent
  split <;> rfl

@[simp]
theorem usedUpd_afterBegin (s : ScanState) (o : Str) :
    (usedUpd s o).afterBegin = s.afterBegin := rfl

@[simp]
theorem usedUpd_currentVarSection (s : ScanState) (o : Str) :
    (usedUpd s o).currentVarSection = s.currentVarSection := rfl

@[simp]
theorem usedUpd_currentBlock (s : ScanState) (o : Str) :
    (usedUpd s o).currentBlock = s.currentBlock := rfl

@[simp]
theorem usedUpd_blocks (s : ScanState) (o : Str) :
    (usedUpd s o).blocks = s.blocks := rfl

@[simp]
theorem usedUpd_controlStack (s : ScanState) (o : Str) :
    (usedUpd s o).controlStack = s.controlStack := rfl

@[simp]
theorem usedUpd_blockStack (s : ScanState) (o : Str) :
    (usedUpd s o).blockStack = s.blockStack := rfl

@[simp]
theorem usedUpd_varStack (s : ScanState) (o : Str) :
    (usedUpd s o).varStack = s.varStack := rfl

@[simp]
theorem usedUpd_exitOutside (s : ScanState) (o : Str) :
    (usedUpd s o).exitOutside = s.exitOutside := rfl

@[simp]
theorem usedUpd_unmatchedCloses (s : ScanState) (o : Str) :
    (usedUpd s o).unmatchedCloses = s.unmatchedCloses := rfl

@[simp]
theorem usedUpd_vars (s : ScanState) (o : Str) :
    (usedUpd s o).vars = s.vars := rfl

@[simp]
theorem usedUpd_lineIdx (s : ScanState) (o : Str) :
    (usedUpd s o).lineIdx = s.lineIdx := rfl

theorem isPrefixOf_eq_false {a u : Str} (h : ¬ a <+: u) :
    a.isPrefixOf u = false := by
  cases hp : a.isPrefixOf u with
  | false => rfl
  | true => exact absurd (List.isPrefixOf_iff_prefix.mp hp) h

/-- When the upper-cased line fails the pragma, version, block, BEGIN
and variable-section tests and the scanner is past BEGIN, `classify`
lands in the executable-code branch. -/
theorem classify_codeStep (s : ScanState) (orig : Str)
    (hab : s.afterBegin = true)
    (hne : trimmedOf orig ≠ [])
    (hprag : pragmaTest (trimmedOf orig) = false)
    (hver : ("VERSION".data).isPrefixOf (upperOf orig) = false)
    (hbp : ∀ p ∈ blockPairs, matchKeyword (upperOf orig) p.1 = false)
    (hbe : ∀ k ∈ blockEnds, matchKeyword (upperOf orig) k = false)
    (hbeg : upperOf orig ≠ "BEGIN".data)
    (hev : matchKeyword (upperOf orig) "END_VAR".data = false)
    (hes : matchKeyword (upperOf orig) "END_STRUCT".data = false)
    (hvc : ("VAR".data).isPrefixOf (upperOf orig) = false)
    (hvo : ∀ k ∈ varOpens, matchKeyword (upperOf orig) k = false) :
    classify s orig = codeStep (usedUpd s orig) (trimmedOf orig) (upperOf orig) := by
  have hfb : blockPairs.find? (fun p => matchKeyword (upperOf orig) p.1) = none :=
    List.find?_eq_none.mpr (fun p hp => by simp [hbp p hp])
  have hfe : blockEnds.find? (fun k => matchKeyword (upperOf orig) k) = none :=
    List.find?_eq_none.mpr (fun k hk => by simp [hbe k hk])
  have hfv : varOpens.find? (fun k => matchKeyword (upperOf orig) k) = none :=
    List.find?_eq_none.mpr (fun k hk => by simp [hvo k hk])
  have hver' : ¬ ("VERSION".data <+: upperOf orig) := fun h => by
    simp [List.isPrefixOf_iff_prefix.mpr h] at hver
  have hvc' : ¬ ("VAR".data <+: upperOf orig) := fun h => by
    simp [List.isPrefixOf_iff_prefix.mpr h] at hvc
  unfold classify
  simp only [trimmedOf, upperOf] at hne hprag hver' hbeg hev hes hvc' hfb hfe hfv ⊢
  simp [hne, hprag, hver', hfb, hfe, hbeg, hev, hes, hvc', hfv, hab,
    List.isEmpty_iff]

theorem head_eq_of_prefix {a : Char} {r u : Str} (h : (a :: r) <+: u) :
    ∃ t, u = a :: t := by
  obtain ⟨t, ht⟩ := h
  exact ⟨r ++ t, by simp [← ht]⟩

theorem pragma_false_of_upper_head {orig : Str} {a : Char} {r : Str}
    (h : (a :: r) <+: upperOf orig) (ha : a ≠ obrace) :
    pragmaTest (trimmedOf orig) = false := by
  unfold upperOf at h
  cases htr : trimmedOf orig with
  | nil => rfl
  | cons c t =>
    rw [htr] at h
    have hac : a = upChar c := (List.cons_prefix_cons.mp (by simpa [upperStr] using h)).1
    have hc : c ≠ obrace := by
      intro hc
      subst hc
      exact ha (by simpa using hac)
    simp [pragmaTest, hc]

theorem upper_ne_nil_of_starts {orig : Str} {a : Char} {r : Str}
    (h : (a :: r) <+: upperOf orig) : trimmedOf orig ≠ [] := by
  intro htr
  have : upperOf orig = [] := by simp [upperOf, htr, upperStr]
  rw [this] at h
  exact absurd (List.prefix_nil.mp h) (by simp)

/-! ### Claim C5 — keyword recognition for control-flow openers -/

/-- C5, counterexample: the claim says every control-flow opener is
recognized by the keyword-matching rule, so that an IF followed by a tab
pushes a control-flow frame; but the scanner's IF test accepts only a
space: on the line `IF<TAB>#a THEN` the keyword rule matches IF while no
frame is pushed, and in a full parse the subsequent `END_IF` is
reported as an unmatched closer even though every opener has a
matching closer under the keyword rule. -/
theorem c5_counterexample :
    matchKeyword (upperOf ("IF\t#a THEN".data)) "IF".data = true ∧
    (classify { initState with afterBegin := true }
        ("IF\t#a THEN".data)).1.controlStack = [] ∧
    (parse ("FUNCTION_BLOCK \"FB_X\"\nBEGIN\nIF\t#a THEN\nEND_IF;\nEND_FUNCTION_BLOCK".data)).unmatchedCloses =
      [⟨"END_IF".data, 3, 0⟩] := by
  decide

/-- C5, amended: the helper `matchKeyword` does implement the spec's
rule (case-insensitively on the already upper-cased trimmed line: equal
to K, to `K;`, or K followed by space, tab or semicolon), and the
FOR/WHILE/REPEAT/REGION/CASE openers and all closers use it; but the IF
opener uses a narrower test: in executable code a line whose upper-cased
trimmed form starts with `IF` pushes an IF frame exactly when that form
equals `IF` or continues with a space — so `IF<TAB>...` pushes no frame,
and a longer identifier such as `IFX` pushes none either. -/
theorem c5_amended :
    (∀ u k : Str, matchKeyword u k = true ↔
      (u = k ∨ u = k ++ [';'] ∨ (k ++ [' ']) <+: u ∨ (k ++ ['\t']) <+: u ∨
        (k ++ [';']) <+: u)) ∧
    (∀ (s : ScanState) (orig : Str), s.afterBegin = true →
      "IF".data <+: upperOf orig →
      (classify s orig).1.controlStack =
        (if (upperOf orig = "IF".data ∨ ("IF ".data).isPrefixOf (upperOf orig)) ∧
            ¬ (("ELSIF".data).isPrefixOf (upperOf orig)) then
          (⟨"IF".data, s.lineIdx, 0⟩ : StackEntry) :: s.controlStack
        else s.controlStack)) := by
  constructor
  · intro u k
    simp [matchKeyword, List.isPrefixOf_iff_prefix]
  · intro s orig hab hIF
    have hcs := classify_codeStep s orig hab
      (upper_ne_nil_of_starts hIF)
      (pragma_false_of_upper_head hIF (by decide))
      (isPrefixOf_eq_false (not_prefix_of_conflict hIF (by decide) (by decide)))
      (by
        intro p hp
        simp only [blockPairs, List.mem_cons, List.not_mem_nil, or_false] at hp
        rcases hp with rfl | rfl | rfl | rfl | rfl <;>
          exact matchKeyword_false_of_conflict hIF (by decide) (by decide))
      (by
        intro k hk
        simp only [blockEnds, blockPairs, List.map_cons, List.map_nil, List.mem_cons,
          List.not_mem_nil, or_false] at hk
        rcases hk with rfl | rfl | rfl | rfl | rfl <;>
          exact matchKeyword_false_of_conflict hIF (by decide) (by decide))
      (by
        intro h
        rw [h] at hIF
        exact absurd hIF (by decide))
      (matchKeyword_false_of_conflict hIF (by decide) (by decide))
      (matchKeyword_false_of_conflict hIF (by decide) (by decide))
      (isPrefixOf_eq_false (not_prefix_of_conflict hIF (by decide) (by decide)))
      (by
        intro k hk
        simp only [varOpens, List.mem_cons, List.not_mem_nil, or_false] at hk
        rcases hk with rfl | rfl | rfl | rfl | rfl | rfl | rfl <;>
          exact matchKeyword_false_of_conflict hIF (by decide) (by decide))
    rw [hcs]
    have hCASE : matchKeyword (upperOf orig) "CASE".data = false :=
      matchKeyword_false_of_conflict hIF (by decide) (by decide)
    have hELSE : matchKeyword (upperOf orig) "ELSE".data = false :=
      matchKeyword_false_of_conflict hIF (by decide) (by decide)
    have hELSIF : ("ELSIF".data).isPrefixOf (upperOf orig) = false :=
      isPrefixOf_eq_false (not_prefix_of_conflict hIF (by decide) (by decide))
    have hFWRR : ∀ k ∈ ["FOR".data, "WHILE".data, "REPEAT".data, "REGION".data],
        matchKeyword (upperOf orig) k = false := by
      intro k hk
      simp only [List.mem_cons, List.not_mem_nil, or_false] at hk
      rcases hk with rfl | rfl | rfl | rfl <;>
        exact matchKeyword_false_of_conflict hIF (by decide) (by decide)
    have hCE : ∀ k ∈ controlEnds, matchKeyword (upperOf orig) k = false := by
      intro k hk
      simp only [controlEnds, controlPairs, List.map_cons, List.map_nil, List.mem_cons,
        List.not_mem_nil, or_false] at hk
      rcases hk with rfl | rfl | rfl | rfl | rfl | rfl <;>
        exact matchKeyword_false_of_conflict hIF (by decide) (by decide)
    have hEXIT : matchKeyword (upperOf orig) "EXIT".data = false :=
      matchKeyword_false_of_conflict hIF (by decide) (by decide)
    have hCONT : matchKeyword (upperOf orig) "CONTINUE".data = false :=
      matchKeyword_false_of_conflict hIF (by decide) (by decide)
    have hfFW : (["FOR".data, "WHILE".data, "REPEAT".data, "REGION".data].find?
        (fun k => matchKeyword (upperOf orig) k)) = none :=
      List.find?_eq_none.mpr (fun k hk => by simp [hFWRR k hk])
    have hfCE : (controlEnds.find? (fun k => matchKeyword (upperOf orig) k)) = none :=
      List.find?_eq_none.mpr (fun k hk => by simp [hCE k hk])
    unfold codeStep
    simp only [hCASE, hELSE, hfFW, hfCE, hEXIT, hCONT, Bool.false_eq_true,
      false_and, if_false, or_self]
    split <;> (split <;> simp [markCurrent_controlStack])

/-- C5, witness for the amended theorem: with the scanner in executable
code, `IF<TAB>X THEN` pushes no frame while `IF #a THEN` pushes one. -/
theorem c5_amended_witness :
    (classify { initState with afterBegin := true } ("IF\tX THEN".data)).1.controlStack = [] ∧
    (classify { initState with afterBegin := true } ("IF #a THEN".data)).1.controlStack =
      [⟨"IF".data, 0, 0⟩] := by
  constructor
  · have h := c5_amended.2 ({ initState with afterBegin := true }) ("IF\tX THEN".data)
      rfl (by decide)
    rw [h]
    decide
  · have h := c5_amended.2 ({ initState with afterBegin := true }) ("IF #a THEN".data)
      rfl (by decide)
    rw [h]
    decide

/-! ### Claim C8 — EXIT/CONTINUE outside a loop -/

/-- C8: in executable code, a line matching `EXIT` or `CONTINUE`
appends exactly one exit-outside-loop entry when no frame on the
control-flow stack is FOR/WHILE/REPEAT, and none when such a loop frame
is present; the rule engine then emits exactly one SCL005 error per
entry, so each such statement yields exactly one diagnostic. -/
theorem c8_exit_outside_loop :
    (∀ (s : ScanState) (orig : Str), s.afterBegin = true →
      (matchKeyword (upperOf orig) "EXIT".data = true ∨
        matchKeyword (upperOf orig) "CONTINUE".data = true) →
      (classify s orig).1.exitOutside =
        (if s.controlStack.any (fun e => loopKeywords.contains e.keyword) then s.exitOutside
         else s.exitOutside ++
           [⟨(if ("EXIT".data).isPrefixOf (upperOf orig) then "EXIT".data else "CONTINUE".data),
             s.lineIdx, 0⟩])) ∧
    (∀ r : ParseResult, ruleExitOutsideLoop r =
      r.exitOutsideLoop.map (fun e =>
        { line := e.line, col := 0, endCol := none,
          message := quoted e.keyword ++ " used outside of a FOR/WHILE/REPEAT loop".data,
          severity := .Error, code := "SCL005".data })) := by
  constructor
  · intro s orig hab hm
    have hpre : ("EXIT".data <+: upperOf orig) ∨ ("CONTINUE".data <+: upperOf orig) := by
      rcases hm with h | h
      · exact Or.inl (matchKeyword_starts h)
      · exact Or.inr (matchKeyword_starts h)
    have hcs : classify s orig = codeStep (usedUpd s orig) (trimmedOf orig) (upperOf orig) := by
      rcases hpre with hp | hp
      · exact classify_codeStep s orig hab
          (upper_ne_nil_of_starts hp)
          (pragma_false_of_upper_head hp (by decide))
          (isPrefixOf_eq_false (not_prefix_of_conflict hp (by decide) (by decide)))
          (by
            intro p hpm
            simp only [blockPairs, List.mem_cons, List.not_mem_nil, or_false] at hpm
            rcases hpm with rfl | rfl | rfl | rfl | rfl <;>
              exact matchKeyword_false_of_conflict hp (by decide) (by decide))
          (by
            intro k hk
            simp only [blockEnds, blockPairs, List.map_cons, List.map_nil, List.mem_cons,
              List.not_mem_nil, or_false] at hk
            rcases hk with rfl | rfl | rfl | rfl | rfl <;>
              exact matchKeyword_false_of_conflict hp (by decide) (by decide))
          (by
            intro h
            rw [h] at hp
            exact absurd hp (by decide))
          (matchKeyword_false_of_conflict hp (by decide) (by decide))
          (matchKeyword_false_of_conflict hp (by decide) (by decide))
          (isPrefixOf_eq_false (not_prefix_of_conflict hp (by decide) (by decide)))
          (by
            intro k hk
            simp only [varOpens, List.mem_cons, List.not_mem_nil, or_false] at hk
            rcases hk with rfl | rfl | rfl | rfl | rfl | rfl | rfl <;>
              exact matchKeyword_false_of_conflict hp (by decide) (by decide))
      · exact classify_codeStep s orig hab
          (upper_ne_nil_of_starts hp)
          (pragma_false_of_upper_head hp (by decide))
          (isPrefixOf_eq_false (not_prefix_of_conflict hp (by decide) (by decide)))
          (by
            intro p hpm
            simp only [blockPairs, List.mem_cons, List.not_mem_nil, or_false] at hpm
            rcases hpm with rfl | rfl | rfl | rfl | rfl <;>
              exact matchKeyword_false_of_conflict hp (by decide) (by decide))
          (by
            intro k hk
            simp only [blockEnds, blockPairs, List.map_cons, List.map_nil, List.mem_cons,
              List.not_mem_nil, or_false] at hk
            rcases hk with rfl | rfl | rfl | rfl | rfl <;>
              exact matchKeyword_false_of_conflict hp (by decide) (by decide))
          (by
            intro h
            rw [h] at hp
            exact absurd hp (by decide))
          (matchKeyword_false_of_conflict hp (by decide) (by decide))
          (matchKeyword_false_of_conflict hp (by decide) (by decide))
          (isPrefixOf_eq_false (not_prefix_of_conflict hp (by decide) (by decide)))
          (by
            intro k hk
            simp only [varOpens, List.mem_cons, List.not_mem_nil, or_false] at hk
            rcases hk with rfl | rfl | rfl | rfl | rfl | rfl | rfl <;>
              exact matchKeyword_false_of_conflict hp (by decide) (by decide))
    have hne : ∀ k k' : Str, k <+: upperOf orig → ¬ k <+: k' → ¬ k' <+: k →
        matchKeyword (upperOf orig) k' = false :=
      fun k k' h h1 h2 => matchKeyword_false_of_conflict h h1 h2
    have hCASE : matchKeyword (upperOf orig) "CASE".data = false := by
      rcases hpre with hp | hp
      · exact matchKeyword_false_of_conflict hp (by decide) (by decide)
      · exact matchKeyword_false_of_conflict hp (by decide) (by decide)
    have hELSE : matchKeyword (upperOf orig) "ELSE".data = false := by
      rcases hpre with hp | hp
      · exact matchKeyword_false_of_conflict hp (by decide) (by decide)
      · exact matchKeyword_false_of_conflict hp (by decide) (by decide)
    have hIFeq : ¬ (upperOf orig = "IF".data) := by
      intro h
      rcases hpre with hp | hp <;> rw [h] at hp <;> exact absurd hp (by decide)
    have hIFsp : ("IF ".data).isPrefixOf (upperOf orig) = false := by
      rcases hpre with hp | hp
      · exact isPrefixOf_eq_false (not_prefix_of_conflict hp (by decide) (by decide))
      · exact isPrefixOf_eq_false (not_prefix_of_conflict hp (by decide) (by decide))
    have hfFW : (["FOR".data, "WHILE".data, "REPEAT".data, "REGION".data].find?
        (fun k => matchKeyword (upperOf orig) k)) = none := by
      refine List.find?_eq_none.mpr (fun k hk => ?_)
      simp only [List.mem_cons, List.not_mem_nil, or_false] at hk
      rcases hpre with hp | hp <;>
        (rcases hk with rfl | rfl | rfl | rfl <;>
          exact fun hcontra => absurd (matchKeyword_starts hcontra)
            (not_prefix_of_conflict hp (by decide) (by decide)))
    have hfCE : (controlEnds.find? (fun k => matchKeyword (upperOf orig) k)) = none := by
      refine List.find?_eq_none.mpr (fun k hk => ?_)
      simp only [controlEnds, controlPairs, List.map_cons, List.map_nil, List.mem_cons,
        List.not_mem_nil, or_false] at hk
      rcases hpre with hp | hp <;>
        (rcases hk with rfl | rfl | rfl | rfl | rfl | rfl <;>
          exact fun hcontra => absurd (matchKeyword_starts hcontra)
            (not_prefix_of_conflict hp (by decide) (by decide)))
    rw [hcs]
    unfold codeStep
    simp only [hCASE, hELSE, hIFeq, hIFsp, Bool.false_eq_true, false_and, false_or,
      if_false, hfFW, hfCE, or_self]
    rcases hm with h | h <;>
      simp only [h, true_or, or_true, if_true] <;>
      (split <;>
        (simp only [markCurrent_controlStack, markCurrent_exitOutside, usedUpd_controlStack,
           usedUpd_exitOutside]
         split <;> simp [markCurrent_exitOutside]))
  · intro r
    rfl

/-- C8, witness: `EXIT;` directly in a block's code section produces
one entry; nested below a FOR frame it produces none. -/
theorem c8_exit_outside_loop_witness :
    (classify { initState with afterBegin := true } ("EXIT;".data)).1.exitOutside =
      [⟨"EXIT".data, 0, 0⟩] ∧
    (classify { initState with afterBegin := true, controlStack := [⟨"FOR".data, 0, 0⟩] }
        ("EXIT;".data)).1.exitOutside = [] := by
  constructor
  · have h := c8_exit_outside_loop.1 ({ initState with afterBegin := true })
      ("EXIT;".data) rfl (Or.inl (by decide))
    rw [h]
    decide
  · have h := c8_exit_outside_loop.1
      ({ initState with afterBegin := true, controlStack := [⟨"FOR".data, 0, 0⟩] })
      ("EXIT;".data) rfl (Or.inl (by decide))
    rw [h]
    decide

/-! ### Claim C10 — semicolon-only BEGIN sections stay empty -/

theorem declStep_blocks (s : ScanState) (o : Str) : (declStep s o).blocks = s.blocks := by
  unfold declStep
  cases h : declRegexFull (trimL o) with
  | some nt =>
    simp only [h]
    split <;> rfl
  | none =>
    simp only [h]
    cases h2 : declRegexSimple (trimL o) with
    | some nt =>
      simp only [h2]
      split <;> rfl
    | none => simp only [h2]

theorem varEndStep_blocks (s : ScanState) (u : Str) :
    (varEndStep s u).1.blocks = s.blocks := by
  unfold varEndStep
  cases s.varStack <;> rfl

theorem listModify_map {α β : Type} (l : List α) (i : Nat) (f : α → α) (g : α → β)
    (h : ∀ x, g (f x) = g x) : (listModify l i f).map g = l.map g := by
  induction l generalizing i with
  | nil => rfl
  | cons x r ih =>
    cases i with
    | zero => simp [listModify, h]
    | succ n => simp [listModify, ih]

theorem markCurrent_blocks_map {β : Type} (s : ScanState) (f : BlockDecl → BlockDecl)
    (g : BlockDecl → β) (h : ∀ b, g (f b) = g b) :
    (markCurrent s f).blocks.map g = s.blocks.map g := by
  unfold markCurrent
  split
  · simp [listModify_map _ _ _ _ h]
  · rfl

theorem blockCloseStep_blocks_map (s : ScanState) (k : Str) :
    (blockCloseStep s k).1.blocks.map (·.hasCode) = s.blocks.map (·.hasCode) := by
  unfold blockCloseStep
  split
  · split
    · exact markCurrent_blocks_map s _ _ (fun b => rfl)
    · rfl
  · rfl

/-- A line that is a lone semicolon or `END_`-prefixed never flips a
`hasCode` flag in the executable-code branch. -/
theorem codeStep_hasCode_map (s : ScanState) (t u : Str)
    (hcond : t = [';'] ∨ ("END_".data).isPrefixOf u = true) :
    (codeStep s t u).1.blocks.map (·.hasCode) = s.blocks.map (·.hasCode) := by
  have hs1 : ¬ (s.currentBlock.isSome = true ∧ t ≠ [';'] ∧
      ¬ (("END_".data).isPrefixOf u = true)) := by
    rcases hcond with rfl | hEnd
    · simp
    · simp [hEnd]
  unfold codeStep
  rw [if_neg hs1]
  dsimp only
  by_cases hC : matchKeyword u "CASE".data = true
  · rw [if_pos hC]
    exact markCurrent_blocks_map _ _ _ (fun b => rfl)
  · rw [if_neg hC]
    by_cases hE : matchKeyword u "ELSE".data = true ∧ ¬ s.controlStack.isEmpty = true
    · rw [if_pos hE]
      cases hcs : s.controlStack with
      | nil => rfl
      | cons top rest =>
        dsimp only
        by_cases hT : top.keyword = "CASE".data ∧ s.currentBlock.isSome = true
        · rw [if_pos hT]
          exact markCurrent_blocks_map _ _ _ (fun b => rfl)
        · rw [if_neg hT]
    · rw [if_neg hE]
      repeat' split
      all_goals rfl

/-- Under an `END_`-prefixed upper-cased line, the executable-code
branch never touches the block list. -/
theorem codeStep_blocks_END (s : ScanState) (t u : Str) (h : ("END_".data) <+: u) :
    (codeStep s t u).1.blocks = s.blocks := by
  have hCASE : matchKeyword u "CASE".data = false :=
    matchKeyword_false_of_conflict h (by decide) (by decide)
  have hELSE : matchKeyword u "ELSE".data = false :=
    matchKeyword_false_of_conflict h (by decide) (by decide)
  have hIFeq : ¬ (u = "IF".data) := by
    intro hu
    rw [hu] at h
    exact absurd h (by decide)
  have hIFsp : ("IF ".data).isPrefixOf u = false :=
    isPrefixOf_eq_false (not_prefix_of_conflict h (by decide) (by decide))
  have hfFW : (["FOR".data, "WHILE".data, "REPEAT".data, "REGION".data].find?
      (fun k => matchKeyword u k)) = none := by
    refine List.find?_eq_none.mpr (fun k hk => ?_)
    simp only [List.mem_cons, List.not_mem_nil, or_false] at hk
    rcases hk with rfl | rfl | rfl | rfl <;>
      exact fun hcontra => absurd (matchKeyword_starts hcontra)
        (not_prefix_of_conflict h (by decide) (by decide))
  have hEXIT : matchKeyword u "EXIT".data = false :=
    matchKeyword_false_of_conflict h (by decide) (by decide)
  have hCONT : matchKeyword u "CONTINUE".data = false :=
    matchKeyword_false_of_conflict h (by decide) (by decide)
  have hend : ("END_".data).isPrefixOf u = true := List.isPrefixOf_iff_prefix.mpr h
  unfold codeStep
  simp only [hCASE, hELSE, hIFeq, hIFsp, hfFW, hEXIT, hCONT, hend,
    Bool.false_eq_true, Bool.true_eq_false, false_and, false_or, and_false,
    not_true, if_false, or_self]
  split <;> (try split) <;> (try split) <;> rfl

/-- C10: a line consisting of a single semicolon (or a blank line, or an
`END_`-prefixed closer line) never sets any block's `hasCode` flag, so a
block whose BEGIN section contains only such lines keeps `hasCode`
false; and for every non-data, non-user-type block with a BEGIN section
and no executable code, the rule engine emits the empty-BEGIN-section
warning for that block. -/
theorem c10_empty_begin :
    (∀ (s : ScanState) (orig : Str),
      (trimmedOf orig = [] ∨ trimmedOf orig = [';'] ∨ ("END_".data) <+: upperOf orig) →
      (classify s orig).1.blocks.map (·.hasCode) = s.blocks.map (·.hasCode)) ∧
    (∀ (r : ParseResult) (b : BlockDecl), b ∈ r.blocks →
      ¬ (b.type = "DATA_BLOCK".data ∨ b.type = "TYPE".data) →
      b.hasBegin = true → b.hasCode = false →
      ({ line := b.line, col := 0, endCol := none,
         message := "Block ".data ++ quoted (blockLabel b) ++
           " has an empty BEGIN section".data,
         severity := .Warning, code := "SCL105".data } : LintDiagnostic) ∈
        ruleEmptyBlock r) := by
  constructor
  · intro s orig hshape
    rcases hshape with h0 | h1 | h2
    · simp only [trimmedOf] at h0
      unfold classify
      simp [h0]
    · simp only [trimmedOf] at h1
      unfold classify
      simp only [h1]
      have e1 : blockPairs.find? (fun p => matchKeyword (upperStr [';']) p.1) = none := by
        decide
      have e2 : blockEnds.find? (fun k => matchKeyword (upperStr [';']) k) = none := by
        decide
      have e3 : varOpens.find? (fun k => matchKeyword (upperStr [';']) k) = none := by
        decide
      have e4 : controlEnds.find? (fun k => matchKeyword (upperStr [';']) k) = none := by
        decide
      have e5 : (["FOR".data, "WHILE".data, "REPEAT".data, "REGION".data].find?
          (fun k => matchKeyword (upperStr [';']) k)) = none := by decide
      simp +decide [e1, e2, e3, e4, e5, declStep_blocks, codeStep, markCurrent_blocks_map]
      split <;> simp [declStep_blocks]
    · have hne := upper_ne_nil_of_starts h2
      have hfb : blockPairs.find? (fun p => matchKeyword (upperOf orig) p.1) = none := by
        refine List.find?_eq_none.mpr (fun p hp => ?_)
        simp only [blockPairs, List.mem_cons, List.not_mem_nil, or_false] at hp
        rcases hp with rfl | rfl | rfl | rfl | rfl <;>
          exact fun hcontra => absurd (matchKeyword_starts hcontra)
            (not_prefix_of_conflict h2 (by decide) (by decide))
      have hEndB : ("END_".data).isPrefixOf (upperOf orig) = true :=
        List.isPrefixOf_iff_prefix.mpr h2
      unfold classify
      simp only [trimmedOf, upperOf] at hne hfb hEndB
      have hneB : (trimL (stripStrings orig)).isEmpty = false := by
        simp [List.isEmpty_iff, hne]
      simp only [hneB, Bool.false_eq_true, if_false, hfb]
      repeat' split
      all_goals
        first
          | rfl
          | exact markCurrent_blocks_map _ _ _ (fun b => rfl)
          | exact blockCloseStep_blocks_map _ _
          | exact codeStep_hasCode_map _ _ _ (Or.inr hEndB)
          | simp [varEndStep_blocks, declStep_blocks]
  · intro r b hb hty hbeg hcode
    unfold ruleEmptyBlock
    refine List.mem_flatMap.mpr ⟨b, hb, ?_⟩
    simp [hty, hbeg, hcode]

/-- C10, witness: a BEGIN section containing only `;` leaves `hasCode`
false at the classification step, and the parsed block receives exactly
the empty-BEGIN-section warning. -/
theorem c10_empty_begin_witness :
    (classify { initState with afterBegin := true, currentBlock := some 0 }
        (";".data)).1.blocks.map (·.hasCode) = [] ∧
    ({ line := 0, col := 0, endCol := none,
       message := "Block ".data ++ quoted ("FB_E".data) ++
         " has an empty BEGIN section".data,
       severity := .Warning, code := "SCL105".data } : LintDiagnostic) ∈
      ruleEmptyBlock (parse ("FUNCTION_BLOCK \"FB_E\"\nBEGIN\n;\nEND_FUNCTION_BLOCK".data)) := by
  constructor
  · have h := c10_empty_begin.1 ({ initState with afterBegin := true, currentBlock := some 0 })
      (";".data) (Or.inr (Or.inl (by decide)))
    rw [h]
    decide
  · have hb : ({ type := "FUNCTION_BLOCK".data, name := "FB_E".data, line := 0, endLine := 3,
                 hasVersion := false, hasPragma := false, hasBegin := true, hasCode := false,
                 hasCaseElse := [] } : BlockDecl) ∈
        (parse ("FUNCTION_BLOCK \"FB_E\"\nBEGIN\n;\nEND_FUNCTION_BLOCK".data)).blocks := by
      decide
    exact c10_empty_begin.2 _ _ hb (by decide) (by decide) (by decide)

/-! ### Claim C7 — CASE without ELSE -/

theorem filter_flatMap {α β : Type} (l : List α) (f : α → List β) (p : β → Bool) :
    (l.flatMap f).filter p = l.flatMap (fun a => (f a).filter p) := by
  induction l with
  | nil => rfl
  | cons a t ih => simp [List.flatMap_cons, List.filter_append, ih]

theorem flatMap_eq_nil_of {α β : Type} (l : List α) (f : α → List β)
    (h : ∀ a ∈ l, f a = []) : l.flatMap f = [] := by
  induction l with
  | nil => rfl
  | cons a t ih =>
    simp [List.flatMap_cons, h a (List.mem_cons_self a t),
      ih (fun x hx => h x (List.mem_cons_of_mem a hx))]

theorem caseElseDiag_filter (e : Nat × Bool) (l : Nat) :
    (caseElseDiag e).filter (fun d => d.line = l) =
      if e.1 = l then caseElseDiag e else [] := by
  rcases e with ⟨k, flag⟩
  cases flag <;> by_cases hk : k = l <;> simp [caseElseDiag, hk]

theorem filter_flatMap_key {α β : Type} (es : List α) (q : α → Bool) (f : α → List β) :
    (es.filter q).flatMap f = es.flatMap (fun e => if q e then f e else []) := by
  induction es with
  | nil => rfl
  | cons e t ih =>
    by_cases hq : q e <;> simp [List.filter_cons, hq, List.flatMap_cons, ih]

/-- The SCL104 diagnostics at line `l` are exactly the diagnostics of
the `hasCaseElse` entries with key `l`, over all blocks. -/
theorem flatMap_flatMap {α β γ : Type} (l : List α) (f : α → List β) (g : β → List γ) :
    (l.flatMap f).flatMap g = l.flatMap (fun a => (f a).flatMap g) := by
  induction l with
  | nil => rfl
  | cons a t ih => simp [List.flatMap_cons, List.flatMap_append, ih]

theorem ruleCase_filter_line (r : ParseResult) (l : Nat) :
    (ruleCaseWithoutElse r).filter (fun d => d.line = l) =
      ((r.blocks.flatMap (·.hasCaseElse)).filter (fun e => e.1 = l)).flatMap caseElseDiag := by
  have hb : ∀ b : BlockDecl,
      ((b.hasCaseElse.flatMap caseElseDiag).filter (fun d => d.line = l)) =
        ((b.hasCaseElse.filter (fun e => e.1 = l)).flatMap caseElseDiag) := by
    intro b
    rw [filter_flatMap, filter_flatMap_key]
    congr 1
    funext e
    rw [caseElseDiag_filter]
    by_cases he : e.1 = l <;> simp [he]
  unfold ruleCaseWithoutElse
  rw [filter_flatMap]
  simp only [hb]
  rw [filter_flatMap, flatMap_flatMap]

/-- C7, counterexample: the claim says that if an ELSE token occurs
before the CASE's closer, no case-without-else warning is produced; but
when the ELSE belongs to an IF nested inside the CASE, the scanner does
not attribute it to the CASE (the top control frame is the IF), and the
warning is produced anyway. -/
theorem c7_counterexample :
    (splitLines ("FUNCTION_BLOCK \"FB_C\"\nBEGIN\nCASE #x OF\n1 :\nIF #y THEN\nELSE\nEND_IF;\nEND_CASE;\nEND_FUNCTION_BLOCK".data)).get? 5 =
      some ("ELSE".data) ∧
    ruleCaseWithoutElse
        (parse ("FUNCTION_BLOCK \"FB_C\"\nBEGIN\nCASE #x OF\n1 :\nIF #y THEN\nELSE\nEND_IF;\nEND_CASE;\nEND_FUNCTION_BLOCK".data)) =
      [{ line := 2, col := 0, endCol := none,
         message := "CASE statement has no ELSE branch".data,
         severity := .Warning, code := "SCL104".data }] := by
  decide

/-- C7, amended: a CASE's else-tracking entry counts an ELSE only when,
at the ELSE line, that CASE's frame is on top of the control-flow stack;
an ELSE scanned while another frame is on top (e.g. a nested IF) leaves
every else-tracking map unchanged.  The rule engine then emits exactly
one case-without-else warning at line `l` when the entry for `l` is
still false, and none when it was flipped to true. -/
theorem c7_case_without_else :
    (∀ (r : ParseResult) (l : Nat),
      ((r.blocks.flatMap (·.hasCaseElse)).filter (fun e => e.1 = l) = [(l, false)] →
        (ruleCaseWithoutElse r).filter (fun d => d.line = l) =
          [{ line := l, col := 0, endCol := none,
             message := "CASE statement has no ELSE branch".data,
             severity := .Warning, code := "SCL104".data }]) ∧
      ((r.blocks.flatMap (·.hasCaseElse)).filter (fun e => e.1 = l) = [(l, true)] →
        (ruleCaseWithoutElse r).filter (fun d => d.line = l) = [])) ∧
    (∀ (s : ScanState) (orig : Str), s.afterBegin = true →
      matchKeyword (upperOf orig) "ELSE".data = true →
      (match s.controlStack with
       | top :: _ => top.keyword ≠ "CASE".data
       | [] => True) →
      (classify s orig).1.blocks.map (·.hasCaseElse) = s.blocks.map (·.hasCaseElse)) := by
  constructor
  · intro r l
    constructor
    · intro hflt
      rw [ruleCase_filter_line, hflt]
      simp [caseElseDiag]
    · intro hflt
      rw [ruleCase_filter_line, hflt]
      simp [caseElseDiag]
  · intro s orig hab hm htop
    have hp : "ELSE".data <+: upperOf orig := matchKeyword_starts hm
    have hcs : classify s orig = codeStep (usedUpd s orig) (trimmedOf orig) (upperOf orig) := by
      refine classify_codeStep s orig hab
        (upper_ne_nil_of_starts hp)
        (pragma_false_of_upper_head hp (by decide))
        (isPrefixOf_eq_false (not_prefix_of_conflict hp (by decide) (by decide)))
        ?_ ?_ ?_ ?_ ?_
        (isPrefixOf_eq_false (not_prefix_of_conflict hp (by decide) (by decide)))
        ?_
      · intro p hpm
        simp only [blockPairs, List.mem_cons, List.not_mem_nil, or_false] at hpm
        rcases hpm with rfl | rfl | rfl | rfl | rfl <;>
          exact matchKeyword_false_of_conflict hp (by decide) (by decide)
      · intro k hk
        simp only [blockEnds, blockPairs, List.map_cons, List.map_nil, List.mem_cons,
          List.not_mem_nil, or_false] at hk
        rcases hk with rfl | rfl | rfl | rfl | rfl <;>
          exact matchKeyword_false_of_conflict hp (by decide) (by decide)
      · intro h
        rw [h] at hp
        exact absurd hp (by decide)
      · exact matchKeyword_false_of_conflict hp (by decide) (by decide)
      · exact matchKeyword_false_of_conflict hp (by decide) (by decide)
      · intro k hk
        simp only [varOpens, List.mem_cons, List.not_mem_nil, or_false] at hk
        rcases hk with rfl | rfl | rfl | rfl | rfl | rfl | rfl <;>
          exact matchKeyword_false_of_conflict hp (by decide) (by decide)
    have hCASE : matchKeyword (upperOf orig) "CASE".data = false :=
      matchKeyword_false_of_conflict hp (by decide) (by decide)
    have hIFeq : ¬ (upperOf orig = "IF".data) := by
      intro h
      rw [h] at hp
      exact absurd hp (by decide)
    have hIFsp : ("IF ".data).isPrefixOf (upperOf orig) = false :=
      isPrefixOf_eq_false (not_prefix_of_conflict hp (by decide) (by decide))
    have hfFW : (["FOR".data, "WHILE".data, "REPEAT".data, "REGION".data].find?
        (fun k => matchKeyword (upperOf orig) k)) = none := by
      refine List.find?_eq_none.mpr (fun k hk => ?_)
      simp only [List.mem_cons, List.not_mem_nil, or_false] at hk
      rcases hk with rfl | rfl | rfl | rfl <;>
        exact fun hcontra => absurd (matchKeyword_starts hcontra)
          (not_prefix_of_conflict hp (by decide) (by decide))
    have hfCE : (controlEnds.find? (fun k => matchKeyword (upperOf orig) k)) = none := by
      refine List.find?_eq_none.mpr (fun k hk => ?_)
      simp only [controlEnds, controlPairs, List.map_cons, List.map_nil, List.mem_cons,
        List.not_mem_nil, or_false] at hk
      rcases hk with rfl | rfl | rfl | rfl | rfl | rfl <;>
        exact fun hcontra => absurd (matchKeyword_starts hcontra)
          (not_prefix_of_conflict hp (by decide) (by decide))
    have hEXIT : matchKeyword (upperOf orig) "EXIT".data = false :=
      matchKeyword_false_of_conflict hp (by decide) (by decide)
    have hCONT : matchKeyword (upperOf orig) "CONTINUE".data = false :=
      matchKeyword_false_of_conflict hp (by decide) (by decide)
    rw [hcs]
    unfold codeStep
    dsimp only
    by_cases hc1 : (usedUpd s orig).currentBlock.isSome = true ∧ trimmedOf orig ≠ [';'] ∧
        ¬ (("END_".data).isPrefixOf (upperOf orig) = true)
    · rw [if_pos hc1]
      rw [if_neg (by simp [hCASE])]
      cases hcsk : s.controlStack with
      | nil =>
        rw [if_neg (by simp [markCurrent_controlStack, hcsk])]
        simp only [hIFeq, hIFsp, hfFW, hfCE, hEXIT, hCONT, Bool.false_eq_true,
          false_and, false_or, if_false, or_self]
        exact markCurrent_blocks_map _ _ _ (fun b => rfl)
      | cons top rest =>
        rw [if_pos ⟨hm, by simp [markCurrent_controlStack, hcsk]⟩]
        simp only [markCurrent_controlStack, usedUpd_controlStack, hcsk]
        have htop' : top.keyword ≠ "CASE".data := by simpa [hcsk] using htop
        rw [if_neg (by
          intro hcc
          exact absurd hcc.1 htop')]
        exact markCurrent_blocks_map _ _ _ (fun b => rfl)
    · rw [if_neg hc1]
      rw [if_neg (by simp [hCASE])]
      cases hcsk : s.controlStack with
      | nil =>
        rw [if_neg (by simp [usedUpd_controlStack, hcsk])]
        simp only [hIFeq, hIFsp, hfFW, hfCE, hEXIT, hCONT, Bool.false_eq_true,
          false_and, false_or, if_false, or_self]
        rfl
      | cons top rest =>
        rw [if_pos ⟨hm, by simp [usedUpd_controlStack, hcsk]⟩]
        simp only [markCurrent_controlStack, usedUpd_controlStack, hcsk]
        have htop' : top.keyword ≠ "CASE".data := by simpa [hcsk] using htop
        rw [if_neg (by
          intro hcc
          exact absurd hcc.1 htop')]
        rfl

/-- C7, witness: a CASE with no ELSE gets exactly one warning at the
CASE line; with a directly attributed ELSE it gets none. -/
theorem c7_case_without_else_witness :
    (ruleCaseWithoutElse
        (parse ("FUNCTION_BLOCK \"FB_D\"\nBEGIN\nCASE #x OF\nEND_CASE;\nEND_FUNCTION_BLOCK".data))).filter
        (fun d => d.line = 2) =
      [{ line := 2, col := 0, endCol := none,
         message := "CASE statement has no ELSE branch".data,
         severity := .Warning, code := "SCL104".data }] ∧
    (ruleCaseWithoutElse
        (parse ("FUNCTION_BLOCK \"FB_D\"\nBEGIN\nCASE #x OF\nELSE\nEND_CASE;\nEND_FUNCTION_BLOCK".data))).filter
        (fun d => d.line = 2) = [] :=
  ⟨(c7_case_without_else.1 _ 2).1 (by decide), (c7_case_without_else.1 _ 2).2 (by decide)⟩

/-! ### Claim C6: duplicate variables (SCL004) -/

theorem mapGet_cons {α : Type} (e : Str × α) (r : List (Str × α)) (k : Str) :
    mapGet (e :: r) k = if e.1 = k then some e.2 else mapGet r k := by
  by_cases h : e.1 = k <;> simp [mapGet, List.find?, h]

/-- Lookup after insertion. -/
theorem mapGet_mapSet {α : Type} (m : List (Str × α)) (k q : Str) (v : α) :
    mapGet (mapSet m k v) q = if q = k then some v else mapGet m q := by
  induction m with
  | nil =>
    by_cases h : q = k
    · simp [mapSet, mapGet, List.find?, h]
    · have h2 : ¬ k = q := fun hh => h hh.symm
      simp [mapSet, mapGet, List.find?, h, h2]
  | cons e r ih =>
    by_cases he : e.1 = k
    · by_cases h : q = k
      · simp [mapSet, he, mapGet_cons, h]
      · have h2 : ¬ k = q := fun hh => h hh.symm
        simp [mapSet, he, mapGet_cons, h, h2]
    · by_cases h : e.1 = q
      · have hqk : ¬ q = k := fun hq => he (h.trans hq)
        simp [mapSet, he, mapGet_cons, h, hqk]
      · simp [mapSet, he, mapGet_cons, h, ih]

/-- Members of `mapSet` are the new pair or old members. -/
theorem mem_mapSet {α : Type} {m : List (Str × α)} {k : Str} {v : α} {p : Str × α}
    (h : p ∈ mapSet m k v) : p = (k, v) ∨ p ∈ m := by
  induction m with
  | nil => simpa [mapSet] using h
  | cons e r ih =>
    by_cases he : e.1 = k
    · simp only [mapSet, he, if_pos] at h
      rcases List.mem_cons.1 h with h | h
      · exact Or.inl h
      · exact Or.inr (List.mem_cons_of_mem _ h)
    · simp only [mapSet, he, if_neg, ite_false] at h
      rcases List.mem_cons.1 h with h | h
      · exact Or.inr (by rw [h]; exact List.mem_cons_self _ _)
      · rcases ih h with h1 | h1
        · exact Or.inl h1
        · exact Or.inr (List.mem_cons_of_mem _ h1)

/-- Keys of `mapSet`. -/
theorem keys_mapSet {α : Type} (m : List (Str × α)) (k : Str) (v : α) (q : Str) :
    q ∈ (mapSet m k v).map Prod.fst ↔ q ∈ m.map Prod.fst ∨ q = k := by
  induction m with
  | nil => simp [mapSet]
  | cons e r ih =>
    by_cases he : e.1 = k
    · simp only [mapSet, he, if_pos, List.map_cons, List.mem_cons]
      tauto
    · simp only [mapSet, he, ite_false, List.map_cons, List.mem_cons, ih]
      tauto

/-- `mapSet` preserves key distinctness. -/
theorem nodup_keys_mapSet {α : Type} {m : List (Str × α)} {k : Str} {v : α}
    (h : (m.map Prod.fst).Nodup) : ((mapSet m k v).map Prod.fst).Nodup := by
  induction m with
  | nil => simp [mapSet]
  | cons e r ih =>
    rw [List.map_cons, List.nodup_cons] at h
    by_cases he : e.1 = k
    · simp only [mapSet, he, if_pos, List.map_cons, List.nodup_cons]
      exact ⟨he ▸ h.1, h.2⟩
    · simp only [mapSet, he, ite_false, List.map_cons, List.nodup_cons]
      refine ⟨?_, ih h.2⟩
      intro hq
      rcases (keys_mapSet r k v e.1).1 hq with hq | hq
      · exact h.1 hq
      · exact he hq

/-- A successful lookup yields a member. -/
theorem mapGet_mem {α : Type} {m : List (Str × α)} {k : Str} {x : α}
    (h : mapGet m k = some x) : (k, x) ∈ m := by
  induction m with
  | nil => simp [mapGet] at h
  | cons e r ih =>
    rw [mapGet_cons] at h
    by_cases he : e.1 = k
    · rw [if_pos he] at h
      have he2 : e = (k, x) := by
        rcases e with ⟨a, b⟩
        simp_all
      rw [← he2]
      exact List.mem_cons_self _ _
    · rw [if_neg he] at h
      exact List.mem_cons_of_mem _ (ih h)

/-- On key-distinct maps, membership determines the lookup. -/
theorem mapGet_of_mem {α : Type} {m : List (Str × α)} {k : Str} {x : α}
    (hnd : (m.map Prod.fst).Nodup) (h : (k, x) ∈ m) : mapGet m k = some x := by
  induction m with
  | nil => cases h
  | cons e r ih =>
    rw [List.map_cons, List.nodup_cons] at hnd
    rw [mapGet_cons]
    rcases List.mem_cons.1 h with he | hr
    · rw [← he]
      simp
    · have hk : ¬ e.1 = k := by
        intro hek
        exact hnd.1 (hek ▸ List.mem_map.2 ⟨(k, x), hr, rfl⟩)
      rw [if_neg hk]
      exact ih hnd.2 hr

/-- Step function of the grouping fold in `ruleDuplicateVariables` (rules.ts:153). -/
def gStep (m : List (Str × List (Str × List (Nat × Nat)))) (v : VariableDecl) :
    List (Str × List (Str × List (Nat × Nat))) :=
  mapSet m v.block
    (mapSet ((mapGet m v.block).getD []) (lowerStr v.name)
      (((mapGet ((mapGet m v.block).getD []) (lowerStr v.name)).getD []) ++ [(v.line, v.col)]))

theorem groupVars_eq_foldl (vs : List VariableDecl) :
    groupVars vs = vs.foldl gStep [] := rfl

/-- The locations (line, col) of the declarations of lower-cased name `nm`
inside block `bk`, in declaration order. -/
def groupLocs (vs : List VariableDecl) (bk nm : Str) : List (Nat × Nat) :=
  (vs.filter (fun v => v.block = bk ∧ lowerStr v.name = nm)).map (fun v => (v.line, v.col))

/-- Double lookup into the grouping map. -/
def lookup2 (m : List (Str × List (Str × List (Nat × Nat)))) (bk nm : Str) :
    List (Nat × Nat) :=
  (mapGet ((mapGet m bk).getD []) nm).getD []

theorem lookup2_gStep (m : List (Str × List (Str × List (Nat × Nat))))
    (v : VariableDecl) (bk nm : Str) :
    lookup2 (gStep m v) bk nm =
      lookup2 m bk nm ++
        (if v.block = bk ∧ lowerStr v.name = nm then [(v.line, v.col)] else []) := by
  unfold lookup2 gStep
  rw [mapGet_mapSet]
  by_cases hb : bk = v.block
  · rw [if_pos hb]
    simp only [Option.getD_some]
    rw [mapGet_mapSet]
    by_cases hn : nm = lowerStr v.name
    · rw [if_pos hn, if_pos ⟨hb.symm, hn.symm⟩]
      rw [hb, hn]
      simp
    · rw [if_neg hn, if_neg (by rintro ⟨h1, h2⟩; exact hn h2.symm)]
      rw [hb]
      simp
  · rw [if_neg hb, if_neg (by rintro ⟨h1, h2⟩; exact hb h1.symm)]
    simp

theorem lookup2_foldl (vs : List VariableDecl)
    (m : List (Str × List (Str × List (Nat × Nat)))) (bk nm : Str) :
    lookup2 (vs.foldl gStep m) bk nm = lookup2 m bk nm ++ groupLocs vs bk nm := by
  induction vs generalizing m with
  | nil => simp [groupLocs]
  | cons v t ih =>
    rw [List.foldl_cons, ih, lookup2_gStep]
    by_cases hc : v.block = bk ∧ lowerStr v.name = nm <;>
      simp [groupLocs, List.filter_cons, hc]

/-- The grouping map of `ruleDuplicateVariables` sends each (block, name)
pair to the full location list of the matching declarations. -/
theorem lookup2_groupVars (vs : List VariableDecl) (bk nm : Str) :
    lookup2 (groupVars vs) bk nm = groupLocs vs bk nm := by
  rw [groupVars_eq_foldl, lookup2_foldl]
  have h0 : lookup2 [] bk nm = [] := rfl
  rw [h0, List.nil_append]

/-- Well-formedness of the grouping map: distinct keys at both levels. -/
def gWF (m : List (Str × List (Str × List (Nat × Nat)))) : Prop :=
  ((m.map Prod.fst).Nodup) ∧ ∀ p ∈ m, ((p.2.map Prod.fst).Nodup)

theorem gWF_gStep {m : List (Str × List (Str × List (Nat × Nat)))}
    (h : gWF m) (v : VariableDecl) : gWF (gStep m v) := by
  refine ⟨nodup_keys_mapSet h.1, ?_⟩
  intro p hp
  unfold gStep at hp
  rcases mem_mapSet hp with hpe | hpm
  · rw [hpe]
    apply nodup_keys_mapSet
    cases hg : mapGet m v.block with
    | none => simp [hg]
    | some i0 =>
      have h2 := h.2 (v.block, i0) (mapGet_mem hg)
      simpa [hg] using h2
  · exact h.2 p hpm

theorem gWF_foldl (vs : List VariableDecl)
    (m : List (Str × List (Str × List (Nat × Nat)))) (h : gWF m) :
    gWF (vs.foldl gStep m) := by
  induction vs generalizing m with
  | nil => exact h
  | cons v t ih => exact ih _ (gWF_gStep h v)

theorem gWF_groupVars (vs : List VariableDecl) : gWF (groupVars vs) := by
  rw [groupVars_eq_foldl]
  exact gWF_foldl vs [] ⟨List.nodup_nil, by intro p hp; cases hp⟩

/-- Every entry of the grouping map carries exactly the matching locations. -/
theorem groupVars_locs {vs : List VariableDecl} {bk nm : Str}
    {inner : List (Str × List (Nat × Nat))} {locs : List (Nat × Nat)}
    (hb : (bk, inner) ∈ groupVars vs) (hn : (nm, locs) ∈ inner) :
    locs = groupLocs vs bk nm := by
  have hwf := gWF_groupVars vs
  have h1 : mapGet (groupVars vs) bk = some inner := mapGet_of_mem hwf.1 hb
  have h2 : mapGet inner nm = some locs := mapGet_of_mem (hwf.2 (bk, inner) hb) hn
  have h3 := lookup2_groupVars vs bk nm
  unfold lookup2 at h3
  rw [h1] at h3
  simp only [Option.getD_some] at h3
  rw [h2] at h3
  simpa using h3

/-- A (block, name) pair with at least one declaration has its entry in the map. -/
theorem groupVars_exists {vs : List VariableDecl} {bk nm : Str}
    (h : groupLocs vs bk nm ≠ []) :
    ∃ inner, (bk, inner) ∈ groupVars vs ∧ (nm, groupLocs vs bk nm) ∈ inner := by
  have h3 := lookup2_groupVars vs bk nm
  unfold lookup2 at h3
  cases hg : mapGet (groupVars vs) bk with
  | none =>
    rw [hg] at h3
    simp [mapGet] at h3
    exact absurd h3 h
  | some inner =>
    rw [hg] at h3
    simp only [Option.getD_some] at h3
    cases hi : mapGet inner nm with
    | none =>
      rw [hi] at h3
      simp at h3
      exact absurd h3 h
    | some locs =>
      rw [hi] at h3
      simp only [Option.getD_some] at h3
      exact ⟨inner, mapGet_mem hg, h3 ▸ mapGet_mem hi⟩

theorem flatMap_eq_singleton {α β : Type} {l : List α} {f : α → List β} {a0 : α} {x : β}
    (hnd : l.Nodup) (h0 : a0 ∈ l) (hx : f a0 = [x])
    (ho : ∀ a ∈ l, a ≠ a0 → f a = []) : l.flatMap f = [x] := by
  induction l with
  | nil => cases h0
  | cons a t ih =>
    rw [List.flatMap_cons]
    have hnd2 := List.nodup_cons.1 hnd
    rcases List.mem_cons.1 h0 with ha | ha
    · have hfa : f a = [x] := by rw [← ha]; exact hx
      have ht : t.flatMap f = [] := by
        apply flatMap_eq_nil_of
        intro b hb
        apply ho b (List.mem_cons_of_mem a hb)
        intro hb0
        rw [hb0] at hb
        exact hnd2.1 (ha ▸ hb)
      rw [hfa, ht, List.append_nil]
    · have hne : a ≠ a0 := fun he => hnd2.1 (he ▸ ha)
      rw [ho a (List.mem_cons_self a t) hne, List.nil_append]
      exact ih hnd2.2 ha (fun b hb hb0 => ho b (List.mem_cons_of_mem a hb) hb0)

theorem dupDiags_line_mem {nm0 : Str} {locs : List (Nat × Nat)} {d : LintDiagnostic}
    (h : d ∈ dupDiags (nm0, locs)) : ∃ loc ∈ locs, d.line = loc.1 := by
  cases locs with
  | nil => simp [dupDiags] at h
  | cons first rest =>
    simp only [dupDiags] at h
    rcases List.mem_map.1 h with ⟨loc, hloc, hd⟩
    exact ⟨loc, List.mem_cons_of_mem first hloc, by rw [← hd]⟩

theorem dupDiags_filter_nil {nm0 : Str} {locs : List (Nat × Nat)} {L : Nat}
    (h : ∀ loc ∈ locs, loc.1 ≠ L) :
    (dupDiags (nm0, locs)).filter (fun d => d.line = L) = [] := by
  rw [List.filter_eq_nil_iff]
  intro d hd
  rcases dupDiags_line_mem hd with ⟨loc, hloc, hline⟩
  simp only [hline, decide_eq_true_eq]
  exact h loc hloc

theorem dupDiags_pair (nm0 : Str) (a b : Nat × Nat) :
    dupDiags (nm0, [a, b]) =
      [{ line := b.1, col := b.2, endCol := none, message := dupMsg nm0 a.1,
         severity := .Error, code := "SCL004".data }] := rfl

theorem groupLocs_mem {vs : List VariableDecl} {bk nm : Str} {loc : Nat × Nat}
    (h : loc ∈ groupLocs vs bk nm) :
    ∃ v ∈ vs, v.block = bk ∧ lowerStr v.name = nm ∧ loc = (v.line, v.col) := by
  unfold groupLocs at h
  rcases List.mem_map.1 h with ⟨v, hv, hl⟩
  rcases List.mem_filter.1 hv with ⟨hvm, hp⟩
  simp only [decide_eq_true_eq] at hp
  exact ⟨v, hvm, hp.1, hp.2, hl.symm⟩

/-- **C6**: when a variable name is declared exactly twice (case-insensitively)
within the same block and variable lines are distinct, the rule engine emits
exactly one SCL004 duplicate-variable error at the second occurrence, whose
message names the line of the first occurrence, and none at the first. -/
theorem c6_duplicate_variables (r : ParseResult) (bk nm : Str) (v1 v2 : VariableDecl)
    (hgrp : r.vars.filter (fun v => v.block = bk ∧ lowerStr v.name = nm) = [v1, v2])
    (hnd : (r.vars.map (fun v => v.line)).Nodup) :
    (ruleDuplicateVariables r).filter (fun d => d.line = v2.line) =
      [{ line := v2.line, col := v2.col, endCol := none,
         message := dupMsg nm v1.line, severity := .Error, code := "SCL004".data }] ∧
    (ruleDuplicateVariables r).filter (fun d => d.line = v1.line) = [] := by
  have hGL : groupLocs r.vars bk nm = [(v1.line, v1.col), (v2.line, v2.col)] := by
    unfold groupLocs
    rw [hgrp]
    rfl
  have hv1 : v1 ∈ r.vars ∧ (v1.block = bk ∧ lowerStr v1.name = nm) := by
    have hm : v1 ∈ r.vars.filter (fun v => v.block = bk ∧ lowerStr v.name = nm) := by
      rw [hgrp]; exact List.mem_cons_self _ _
    rcases List.mem_filter.1 hm with ⟨h1, h2⟩
    exact ⟨h1, by simpa using h2⟩
  have hv2 : v2 ∈ r.vars ∧ (v2.block = bk ∧ lowerStr v2.name = nm) := by
    have hm : v2 ∈ r.vars.filter (fun v => v.block = bk ∧ lowerStr v.name = nm) := by
      rw [hgrp]; exact List.mem_cons_of_mem _ (List.mem_cons_self _ _)
    rcases List.mem_filter.1 hm with ⟨h1, h2⟩
    exact ⟨h1, by simpa using h2⟩
  have hinj : ∀ x ∈ r.vars, ∀ y ∈ r.vars, x.line = y.line → x = y :=
    fun x hx y hy h => List.inj_on_of_nodup_map hnd hx hy h
  have hline_ne : v1.line ≠ v2.line := by
    have hs : List.Sublist [v1, v2] r.vars := by
      rw [← hgrp]; exact List.filter_sublist _
    have hmlines : ([v1, v2].map (fun v => v.line)).Nodup :=
      List.Nodup.sublist (List.Sublist.map _ hs) hnd
    simpa using hmlines
  have hvan : ∀ (bk2 nm2 : Str), ¬(bk2 = bk ∧ nm2 = nm) →
      ∀ loc ∈ groupLocs r.vars bk2 nm2, loc.1 ≠ v1.line ∧ loc.1 ≠ v2.line := by
    intro bk2 nm2 hne loc hloc
    rcases groupLocs_mem hloc with ⟨v, hvm, hvb, hvn, hvl⟩
    constructor
    · intro h1
      have hv' : v.line = v1.line := by rw [hvl] at h1; exact h1
      have heq : v = v1 := hinj v hvm v1 hv1.1 hv'
      apply hne
      refine ⟨?_, ?_⟩
      · rw [← hvb, heq, hv1.2.1]
      · rw [← hvn, heq, hv1.2.2]
    · intro h2
      have hv' : v.line = v2.line := by rw [hvl] at h2; exact h2
      have heq : v = v2 := hinj v hvm v2 hv2.1 hv'
      apply hne
      refine ⟨?_, ?_⟩
      · rw [← hvb, heq, hv2.2.1]
      · rw [← hvn, heq, hv2.2.2]
  have hwf := gWF_groupVars r.vars
  have hGnd : (groupVars r.vars).Nodup := List.Nodup.of_map _ hwf.1
  have hGLne : groupLocs r.vars bk nm ≠ [] := by rw [hGL]; simp
  rcases groupVars_exists hGLne with ⟨inner0, hbin, hnin⟩
  rw [hGL] at hnin
  have hInd : (inner0.map Prod.fst).Nodup := hwf.2 (bk, inner0) hbin
  have hInd2 : inner0.Nodup := List.Nodup.of_map _ hInd
  have houter : ∀ p ∈ groupVars r.vars, p.1 = bk → p = (bk, inner0) := by
    intro p hp hpk
    exact List.inj_on_of_nodup_map hwf.1 hp hbin (by simpa using hpk)
  have hinner : ∀ q ∈ inner0, q.1 = nm →
      q = (nm, [(v1.line, v1.col), (v2.line, v2.col)]) := by
    intro q hq hqk
    exact List.inj_on_of_nodup_map hInd hq hnin (by simpa using hqk)
  unfold ruleDuplicateVariables
  constructor
  · simp only [filter_flatMap]
    apply flatMap_eq_singleton hGnd hbin
    · apply flatMap_eq_singleton hInd2 hnin
      · rw [dupDiags_pair]
        simp
      · intro q hq hqne
        rcases q with ⟨nm2, locs2⟩
        have hk : nm2 ≠ nm := fun he => hqne (hinner _ hq he)
        have hl2 : locs2 = groupLocs r.vars bk nm2 := groupVars_locs hbin hq
        apply dupDiags_filter_nil
        intro loc hloc
        rw [hl2] at hloc
        exact (hvan bk nm2 (fun hc => hk hc.2) loc hloc).2
    · intro p hp hpne
      rcases p with ⟨bk2, inner2⟩
      have hk : bk2 ≠ bk := fun he => hpne (houter _ hp he)
      apply flatMap_eq_nil_of
      intro q hq
      rcases q with ⟨nm2, locs2⟩
      have hl2 : locs2 = groupLocs r.vars bk2 nm2 := groupVars_locs hp hq
      apply dupDiags_filter_nil
      intro loc hloc
      rw [hl2] at hloc
      exact (hvan bk2 nm2 (fun hc => hk hc.1) loc hloc).2
  · simp only [filter_flatMap]
    apply flatMap_eq_nil_of
    intro p hp
    rcases p with ⟨bk2, inner2⟩
    apply flatMap_eq_nil_of
    intro q hq
    rcases q with ⟨nm2, locs2⟩
    by_cases hc : bk2 = bk ∧ nm2 = nm
    · have hpe : (bk2, inner2) = (bk, inner0) := houter _ hp hc.1
      have hie : inner2 = inner0 := congrArg Prod.snd hpe
      have hq0 : (nm2, locs2) ∈ inner0 := hie ▸ hq
      have hq2 : (nm2, locs2) = (nm, [(v1.line, v1.col), (v2.line, v2.col)]) :=
        hinner _ hq0 hc.2
      rw [hq2, dupDiags_pair]
      simp [Ne.symm hline_ne]
    · have hl2 : locs2 = groupLocs r.vars bk2 nm2 := groupVars_locs hp hq
      apply dupDiags_filter_nil
      intro loc hloc
      rw [hl2] at hloc
      exact (hvan bk2 nm2 hc loc hloc).1

/-- Concrete input for C6: the same name declared as `y` and `Y` in one block. -/
def c6text : Str :=
  ("FUNCTION_BLOCK \"FB_D\"\nVAR\n  y : Bool;\n  Y : Int;\nEND_VAR\nBEGIN\n  ;\nEND_FUNCTION_BLOCK").data

/-- Witness for C6 at a concrete parse: exactly one SCL004 at line 3 naming
line 3 (1-based) of the first declaration, and none at line 2. -/
theorem c6_duplicate_variables_witness :
    (ruleDuplicateVariables (parse c6text)).filter (fun d => d.line = 3) =
      [{ line := 3, col := 0, endCol := none,
         message := dupMsg ("y".data) 2, severity := .Error, code := "SCL004".data }] ∧
    (ruleDuplicateVariables (parse c6text)).filter (fun d => d.line = 2) = [] :=
  c6_duplicate_variables (parse c6text) ("FB_D".data) ("y".data)
    { name := "y".data, type := "Bool".data, varSection := "VAR".data,
      block := "FB_D".data, line := 2, col := 0 }
    { name := "Y".data, type := "Int".data, varSection := "VAR".data,
      block := "FB_D".data, line := 3, col := 0 }
    (by decide) (by decide)

/-! ### Claim C9: `endLine` is `-1` or strictly after the opening line -/

/-- The (line, endLine) skeleton of a block, which most scanner branches
leave untouched. -/
def skel (b : BlockDecl) : Nat × Int := (b.line, b.endLine)

/-- C9 invariant on the block list. -/
def EndInv (bs : List BlockDecl) : Prop :=
  ∀ b ∈ bs, b.endLine = -1 ∨ (b.line : Int) < b.endLine

/-- Full C9 invariant between line iterations: every stamped `endLine`
is after the opening line, and the current block (if any) opened on an
earlier line than the next line to be scanned. -/
def ScanInv (s : ScanState) : Prop :=
  EndInv s.blocks ∧
  ∀ i b, s.currentBlock = some i → s.blocks.get? i = some b → b.line < s.lineIdx

theorem EndInv_of_map {bs bs2 : List BlockDecl}
    (hmap : bs2.map skel = bs.map skel) (hE : EndInv bs) : EndInv bs2 := by
  intro b hb
  have hmem : skel b ∈ bs.map skel := by
    rw [← hmap]
    exact List.mem_map.2 ⟨b, hb, rfl⟩
  rcases List.mem_map.1 hmem with ⟨b0, hb0, hsk⟩
  have hline : b0.line = b.line := congrArg Prod.fst hsk
  have hend : b0.endLine = b.endLine := congrArg Prod.snd hsk
  rcases hE b0 hb0 with h | h
  · left; rw [← hend]; exact h
  · right; rw [← hline, ← hend]; exact h

theorem skelmap_get {bs bs2 : List BlockDecl} (hmap : bs2.map skel = bs.map skel)
    {i : Nat} {b : BlockDecl} (h : bs2.get? i = some b) :
    ∃ b0, bs.get? i = some b0 ∧ b0.line = b.line ∧ b0.endLine = b.endLine := by
  have hg : (bs2.get? i).map skel = (bs.get? i).map skel := by
    rw [← List.get?_map, ← List.get?_map, hmap]
  rw [h] at hg
  cases hb0 : bs.get? i with
  | none => rw [hb0] at hg; simp at hg
  | some b0 =>
    rw [hb0] at hg
    have hsk : skel b = skel b0 := by simpa using hg
    exact ⟨b0, rfl, (congrArg Prod.fst hsk).symm, (congrArg Prod.snd hsk).symm⟩

theorem mem_listModify {α : Type} {l : List α} {i : Nat} {f : α → α} {x : α}
    (h : x ∈ listModify l i f) :
    x ∈ l ∨ ∃ b, l.get? i = some b ∧ x = f b := by
  induction l generalizing i with
  | nil => simp [listModify] at h
  | cons a t ih =>
    cases i with
    | zero =>
      rcases List.mem_cons.1 h with h1 | h1
      · exact Or.inr ⟨a, rfl, h1⟩
      · exact Or.inl (List.mem_cons_of_mem a h1)
    | succ n =>
      rcases List.mem_cons.1 h with h1 | h1
      · exact Or.inl (by rw [h1]; exact List.mem_cons_self a t)
      · rcases ih h1 with h2 | ⟨b, hb, hx⟩
        · exact Or.inl (List.mem_cons_of_mem a h2)
        · exact Or.inr ⟨b, by simpa using hb, hx⟩

theorem markCurrent_lineIdx (s : ScanState) (f : BlockDecl → BlockDecl) :
    (markCurrent s f).lineIdx = s.lineIdx := by
  unfold markCurrent
  split <;> rfl

theorem markCurrent_skel (s : ScanState) (f : BlockDecl → BlockDecl)
    (hf : ∀ b, skel (f b) = skel b) :
    (markCurrent s f).blocks.map skel = s.blocks.map skel :=
  markCurrent_blocks_map s f skel hf

theorem fst_of_eq {α β : Type} {x : α × β} {a : α} {b : β} (h : x = (a, b)) : a = x.1 := by
  rw [h]

/-- The part of `codeStep` after the `hasCode` marking, abstracted over
the intermediate state (`L` stands for the current line index); equal to
the source branch by `codeStep_eq_tail`. -/
def codeStepTail (s1 : ScanState) (L : Nat) (u : Str) :
    ScanState × List Event × List Event :=
  if matchKeyword u "CASE".data then
    let s2 := { s1 with controlStack := ⟨"CASE".data, L, 0⟩ :: s1.controlStack }
    (markCurrent s2 (fun b => { b with hasCaseElse := mapSetN b.hasCaseElse L false }),
     [⟨.ctrlF, true, "CASE".data⟩], [⟨.ctrlF, true, "CASE".data⟩])
  else if matchKeyword u "ELSE".data ∧ ¬ s1.controlStack.isEmpty then
    match s1.controlStack with
    | top :: _ =>
      if top.keyword = "CASE".data ∧ s1.currentBlock.isSome then
        (markCurrent s1 (fun b => { b with hasCaseElse := mapSetN b.hasCaseElse top.line true }),
         [], [])
      else (s1, [], [])
    | [] => (s1, [], [])
  else
    let ifPush := (u = "IF".data ∨ "IF ".data.isPrefixOf u) ∧
      ¬ ("ELSIF".data.isPrefixOf u)
    let s2 := if ifPush then { s1 with controlStack := ⟨"IF".data, L, 0⟩ :: s1.controlStack } else s1
    let ev1 : List Event := if ifPush then [⟨.ctrlF, true, "IF".data⟩] else []
    let sev1 : List Event := if matchKeyword u "IF".data then [⟨.ctrlF, true, "IF".data⟩] else []
    let step3 : ScanState × List Event :=
      match ["FOR".data, "WHILE".data, "REPEAT".data, "REGION".data].find?
          (fun k => matchKeyword u k) with
      | some k =>
        ({ s2 with controlStack := ⟨k, L, 0⟩ :: s2.controlStack },
         ([⟨.ctrlF, true, k⟩] : List Event))
      | none => (s2, [])
    let s3 := step3.1
    let step4 : ScanState × List Event :=
      match controlEnds.find? (fun k => matchKeyword u k) with
      | some closeKw =>
        let st : ScanState :=
          match s3.controlStack with
          | top :: rest =>
            if some top.keyword = controlEndToOpen closeKw then
              { s3 with controlStack := rest }
            else
              { s3 with unmatchedCloses := s3.unmatchedCloses ++ [⟨closeKw, L, 0⟩] }
          | [] =>
            { s3 with unmatchedCloses := s3.unmatchedCloses ++ [⟨closeKw, L, 0⟩] }
        (st, ([⟨.ctrlF, false, closeKw⟩] : List Event))
      | none => (s3, [])
    let s4 := step4.1
    let s5 :=
      if matchKeyword u "EXIT".data ∨ matchKeyword u "CONTINUE".data then
        if s4.controlStack.any (fun e => loopKeywords.contains e.keyword) then s4
        else
          { s4 with exitOutside := s4.exitOutside ++
              [⟨(if "EXIT".data.isPrefixOf u then "EXIT".data else "CONTINUE".data), L, 0⟩] }
      else s4
    (s5, ev1 ++ step3.2 ++ step4.2, sev1 ++ step3.2 ++ step4.2)

theorem codeStep_eq_tail (s : ScanState) (t u : Str) :
    codeStep s t u =
      codeStepTail
        (if s.currentBlock.isSome ∧ t ≠ [';'] ∧ ¬ ("END_".data.isPrefixOf u) then
          markCurrent s (fun b => { b with hasCode := true }) else s)
        s.lineIdx u := rfl

theorem codeStepTail_c9 (s1 : ScanState) (L : Nat) (u : Str) :
    (codeStepTail s1 L u).1.blocks.map skel = s1.blocks.map skel ∧
    (codeStepTail s1 L u).1.currentBlock = s1.currentBlock ∧
    (codeStepTail s1 L u).1.lineIdx = s1.lineIdx := by
  unfold codeStepTail
  dsimp only
  by_cases hC : matchKeyword u "CASE".data = true
  · rw [if_pos hC]
    exact ⟨markCurrent_skel _ _ (fun b => rfl), markCurrent_currentBlock _ _,
      markCurrent_lineIdx _ _⟩
  · rw [if_neg hC]
    by_cases hE : matchKeyword u "ELSE".data = true ∧ ¬ s1.controlStack.isEmpty = true
    · rw [if_pos hE]
      cases hcs : s1.controlStack with
      | nil => exact ⟨rfl, rfl, rfl⟩
      | cons top rest =>
        dsimp only
        by_cases hT : top.keyword = "CASE".data ∧ s1.currentBlock.isSome = true
        · rw [if_pos hT]
          exact ⟨markCurrent_skel _ _ (fun b => rfl), markCurrent_currentBlock _ _,
            markCurrent_lineIdx _ _⟩
        · rw [if_neg hT]
          exact ⟨rfl, rfl, rfl⟩
    · rw [if_neg hE]
      repeat' split
      all_goals exact ⟨rfl, rfl, rfl⟩

/-- The executable-code branch never changes any block's (line, endLine)
skeleton, the current-block pointer, or the line counter. -/
theorem codeStep_c9 (s : ScanState) (t u : Str) :
    (codeStep s t u).1.blocks.map skel = s.blocks.map skel ∧
    (codeStep s t u).1.currentBlock = s.currentBlock ∧
    (codeStep s t u).1.lineIdx = s.lineIdx := by
  by_cases hc : (s.currentBlock.isSome ∧ t ≠ [';'] ∧ ¬ ("END_".data.isPrefixOf u))
  · rw [codeStep_eq_tail, if_pos hc]
    rcases codeStepTail_c9 (markCurrent s (fun b => { b with hasCode := true }))
        s.lineIdx u with ⟨h1, h2, h3⟩
    refine ⟨?_, ?_, ?_⟩
    · rw [h1]
      exact markCurrent_skel _ _ (fun b => rfl)
    · rw [h2]
      exact markCurrent_currentBlock _ _
    · rw [h3]
      exact markCurrent_lineIdx _ _
  · rw [codeStep_eq_tail, if_neg hc]
    exact codeStepTail_c9 s s.lineIdx u

theorem declStep_c9proj (s : ScanState) (o : Str) :
    (declStep s o).blocks = s.blocks ∧
    (declStep s o).currentBlock = s.currentBlock ∧
    (declStep s o).lineIdx = s.lineIdx := by
  unfold declStep
  cases h : declRegexFull (trimL o) with
  | some nt =>
    simp only [h]
    split <;> exact ⟨rfl, rfl, rfl⟩
  | none =>
    simp only [h]
    cases h2 : declRegexSimple (trimL o) with
    | some nt =>
      simp only [h2]
      split <;> exact ⟨rfl, rfl, rfl⟩
    | none =>
      simp [h2]

theorem varEndStep_c9proj (s : ScanState) (u : Str) :
    (varEndStep s u).1.blocks = s.blocks ∧
    (varEndStep s u).1.currentBlock = s.currentBlock ∧
    (varEndStep s u).1.lineIdx = s.lineIdx := by
  unfold varEndStep
  cases s.varStack <;> exact ⟨rfl, rfl, rfl⟩

/-- Opening a block appends one block with `endLine = -1` whose line is
the current line, and points `currentBlock` at it. -/
theorem blockOpenStep_c9 (s : ScanState) (o kw : Str) (hE : EndInv s.blocks) :
    EndInv (blockOpenStep s o kw).1.blocks ∧
    (∀ i b, (blockOpenStep s o kw).1.currentBlock = some i →
        (blockOpenStep s o kw).1.blocks.get? i = some b → b.line ≤ s.lineIdx) ∧
    (blockOpenStep s o kw).1.lineIdx = s.lineIdx := by
  unfold blockOpenStep
  dsimp only
  refine ⟨?_, ?_, rfl⟩
  · intro b hb
    rcases List.mem_append.1 hb with hb | hb
    · exact hE b hb
    · left
      rw [List.mem_singleton.1 hb]
  · intro i b hi hb
    have hi2 : s.blocks.length = i := Option.some.inj hi
    subst hi2
    rw [List.get?_concat_length] at hb
    rw [← Option.some.inj hb]

/-- Closing a block stamps `endLine` with the current line, which the
invariant places strictly after the block's opening line. -/
theorem blockCloseStep_c9 (s : ScanState) (k : Str) (hE : EndInv s.blocks)
    (hC : ∀ i b, s.currentBlock = some i → s.blocks.get? i = some b → b.line < s.lineIdx) :
    EndInv (blockCloseStep s k).1.blocks ∧
    (∀ i b, (blockCloseStep s k).1.currentBlock = some i →
        (blockCloseStep s k).1.blocks.get? i = some b → b.line ≤ s.lineIdx) ∧
    (blockCloseStep s k).1.lineIdx = s.lineIdx := by
  unfold blockCloseStep
  dsimp only
  split
  · split
    · refine ⟨?_, ?_, ?_⟩
      · intro b hb
        revert hb
        unfold markCurrent
        cases hcb : s.currentBlock with
        | none => exact fun hb => hE b hb
        | some i =>
          intro hb
          dsimp only at hb
          rcases mem_listModify hb with hb | ⟨b0, hg, hfb⟩
          · exact hE b hb
          · right
            rw [hfb]
            have hgoal : ((b0.line : Int)) < ((s.lineIdx : Int)) := by
              exact_mod_cast hC i b0 hcb hg
            exact hgoal
      · intro i b hi hb
        simp at hi
      · exact markCurrent_lineIdx s _
    · exact ⟨hE, fun i b hi hb => le_of_lt (hC i b hi hb), rfl⟩
  · exact ⟨hE, fun i b hi hb => le_of_lt (hC i b hi hb), rfl⟩

/-- One classified line preserves the `endLine` invariant, and leaves
the current block (if any) opened no later than the current line. -/
theorem classify_c9 (s : ScanState) (o : Str)
    (hE : EndInv s.blocks)
    (hC : ∀ i b, s.currentBlock = some i → s.blocks.get? i = some b → b.line < s.lineIdx) :
    EndInv (classify s o).1.blocks ∧
    (∀ i b, (classify s o).1.currentBlock = some i →
        (classify s o).1.blocks.get? i = some b → b.line ≤ s.lineIdx) ∧
    (classify s o).1.lineIdx = s.lineIdx := by
  have hsame : ∀ s2 : ScanState,
      s2.blocks.map skel = s.blocks.map skel →
      s2.currentBlock = s.currentBlock →
      s2.lineIdx = s.lineIdx →
      EndInv s2.blocks ∧
      (∀ i b, s2.currentBlock = some i → s2.blocks.get? i = some b → b.line ≤ s.lineIdx) ∧
      s2.lineIdx = s.lineIdx := by
    intro s2 hm hc hl
    refine ⟨EndInv_of_map hm hE, ?_, hl⟩
    intro i b hi hb
    rcases skelmap_get hm hb with ⟨b0, hb0, hbl, hbe⟩
    rw [← hbl]
    exact le_of_lt (hC i b0 (hc.symm.trans hi) hb0)
  cases hcl2 : classify s o with
  | mk s2 ev =>
    dsimp only
    unfold classify at hcl2
    dsimp only at hcl2
    split at hcl2
    · obtain rfl := fst_of_eq hcl2
      exact hsame _ rfl rfl rfl
    · split at hcl2
      · obtain rfl := fst_of_eq hcl2
        exact hsame _ (markCurrent_skel _ _ (fun b => rfl))
          (markCurrent_currentBlock _ _) (markCurrent_lineIdx _ _)
      · split at hcl2
        · obtain rfl := fst_of_eq hcl2
          exact hsame _ (markCurrent_skel _ _ (fun b => rfl))
            (markCurrent_currentBlock _ _) (markCurrent_lineIdx _ _)
        · split at hcl2
          · obtain rfl := fst_of_eq hcl2
            exact blockOpenStep_c9 _ _ _ hE
          · split at hcl2
            · obtain rfl := fst_of_eq hcl2
              exact blockCloseStep_c9 _ _ hE hC
            · split at hcl2
              · obtain rfl := fst_of_eq hcl2
                exact hsame _ (markCurrent_skel _ _ (fun b => rfl))
                  (markCurrent_currentBlock _ _) (markCurrent_lineIdx _ _)
              · split at hcl2
                · obtain rfl := fst_of_eq hcl2
                  refine hsame _ ?_ ?_ ?_
                  · rw [(varEndStep_c9proj _ _).1]
                    rfl
                  · exact (varEndStep_c9proj _ _).2.1
                  · exact (varEndStep_c9proj _ _).2.2
                · split at hcl2
                  · obtain rfl := fst_of_eq hcl2
                    exact hsame _ rfl rfl rfl
                  · split at hcl2
                    · obtain rfl := fst_of_eq hcl2
                      exact hsame _ rfl rfl rfl
                    · split at hcl2
                      · obtain rfl := fst_of_eq hcl2
                        refine hsame _ ?_ ?_ ?_
                        · rw [(declStep_c9proj _ _).1]
                          rfl
                        · exact (declStep_c9proj _ _).2.1
                        · exact (declStep_c9proj _ _).2.2
                      · split at hcl2
                        · obtain rfl := fst_of_eq hcl2
                          exact hsame _ (codeStep_c9 _ _ _).1
                            (codeStep_c9 _ _ _).2.1 (codeStep_c9 _ _ _).2.2
                        · obtain rfl := fst_of_eq hcl2
                          exact hsame _ rfl rfl rfl

theorem stripStages_c9 (s : ScanState) (l0 : Str)
    (hE : EndInv s.blocks)
    (hC : ∀ i b, s.currentBlock = some i → s.blocks.get? i = some b → b.line < s.lineIdx) :
    EndInv (stripStages s l0).1.blocks ∧
    (∀ i b, (stripStages s l0).1.currentBlock = some i →
        (stripStages s l0).1.blocks.get? i = some b → b.line ≤ s.lineIdx) ∧
    (stripStages s l0).1.lineIdx = s.lineIdx := by
  unfold stripStages
  dsimp only
  split
  · exact classify_c9 _ _ hE hC
  · exact classify_c9 _ _ hE hC

theorem processLine_c9 (s : ScanState) (raw : Str) (h : ScanInv s) :
    ScanInv (processLine s raw).1 := by
  unfold processLine
  dsimp only
  split
  · split
    · rcases stripStages_c9 { s with inBlockComment := false } _ h.1 h.2 with ⟨h1, h2, h3⟩
      exact ⟨h1, fun i b hi hb => Nat.lt_succ_of_le (h2 i b hi hb)⟩
    · exact ⟨h.1, fun i b hi hb => Nat.lt_succ_of_lt (h.2 i b hi hb)⟩
  · rcases stripStages_c9 s raw h.1 h.2 with ⟨h1, h2, h3⟩
    exact ⟨h1, fun i b hi hb => Nat.lt_succ_of_le (h2 i b hi hb)⟩

theorem scanLines_c9 (ls : List Str) (s : ScanState) (h : ScanInv s) :
    ScanInv (scanLines s ls).1 := by
  induction ls generalizing s with
  | nil => exact h
  | cons raw rest ih =>
    simp only [scanLines]
    exact ih _ (processLine_c9 s raw h)

/-- **C9**: in every parse result, every block's `endLine` is either `-1`
(no matching closer was stamped) or strictly greater than the block's
opening line; a block is never recorded as closing on or before the line
where it opened. -/
theorem c9_block_endline (text : Str) (b : BlockDecl) (hb : b ∈ (parse text).blocks) :
    b.endLine = -1 ∨ (b.line : Int) < b.endLine := by
  have hinit : ScanInv initState := by
    constructor
    · intro b hb
      simp [initState] at hb
    · intro i b hi hb
      simp [initState] at hi
  exact (scanLines_c9 (splitLines text) initState hinit).1 b hb

/-- Concrete input for the C9 witness. -/
def c9text : Str := ("FUNCTION_BLOCK \"FB_E\"\nEND_FUNCTION_BLOCK").data

/-- The concrete block produced by parsing `c9text`. -/
def c9blk : BlockDecl :=
  { type := "FUNCTION_BLOCK".data, name := "FB_E".data, line := 0, endLine := 1,
    hasVersion := false, hasPragma := false, hasBegin := false, hasCode := false,
    hasCaseElse := [] }

/-- Witness for C9 at a concrete parse: the block opened at line 0 is
stamped closed at line 1 &gt; 0. -/
theorem c9_block_endline_witness :
    c9blk ∈ (parse c9text).blocks ∧
    (c9blk.endLine = -1 ∨ (c9blk.line : Int) < c9blk.endLine) :=
  ⟨by decide, c9_block_endline c9text c9blk (by decide)⟩

/-! ### Claim C1: well-formed input leaves no unmatched opener or closer -/

theorem runMatcher_append (f : Family) (tr1 tr2 : List Event) (st : List Str) :
    runMatcher f (tr1 ++ tr2) st =
      (runMatcher f tr1 st).bind (fun st2 => runMatcher f tr2 st2) := by
  induction tr1 generalizing st with
  | nil => simp [runMatcher]
  | cons e r ih =>
    simp only [List.cons_append, runMatcher]
    by_cases hf : e.fam = f
    · rw [if_pos hf, if_pos hf]
      by_cases ho : e.opens = true
      · rw [if_pos ho, if_pos ho]
        exact ih _
      · rw [if_neg ho, if_neg ho]
        cases st with
        | nil => simp
        | cons top st2 =>
          dsimp only
          by_cases hm : famMatches f top e.kw = true
          · rw [if_pos hm, if_pos hm]
            exact ih _
          · rw [if_neg hm, if_neg hm]
            simp
    · rw [if_neg hf, if_neg hf]
      exact ih _

/-- The scanner's three stacks agree (keyword-wise) with the matcher run
on the trace so far, and no unmatched closer has been recorded. -/
def StacksOK (s : ScanState) (tr : List Event) : Prop :=
  runMatcher .blockF tr [] = some (s.blockStack.map (fun e => e.keyword)) ∧
  runMatcher .varF tr [] = some (s.varStack.map (fun e => e.keyword)) ∧
  runMatcher .ctrlF tr [] = some (s.controlStack.map (fun e => e.keyword)) ∧
  s.unmatchedCloses = []

/-- Either the stacks still mirror the matcher, or the matcher has
already failed for some family (the input is not well formed). -/
def MatchInv (s : ScanState) (tr : List Event) : Prop :=
  StacksOK s tr ∨
  runMatcher .blockF tr [] = none ∨
  runMatcher .varF tr [] = none ∨
  runMatcher .ctrlF tr [] = none

theorem markCurrent_blockStack (s : ScanState) (f : BlockDecl → BlockDecl) :
    (markCurrent s f).blockStack = s.blockStack := by
  unfold markCurrent
  split <;> rfl

theorem markCurrent_varStack (s : ScanState) (f : BlockDecl → BlockDecl) :
    (markCurrent s f).varStack = s.varStack := by
  unfold markCurrent
  split <;> rfl

theorem markCurrent_unmatchedCloses (s : ScanState) (f : BlockDecl → BlockDecl) :
    (markCurrent s f).unmatchedCloses = s.unmatchedCloses := by
  unfold markCurrent
  split <;> rfl

theorem StacksOK_markCurrent {s : ScanState} {tr : List Event}
    (f : BlockDecl → BlockDecl) (h : StacksOK s tr) :
    StacksOK (markCurrent s f) tr := by
  rcases h with ⟨h1, h2, h3, h4⟩
  refine ⟨?_, ?_, ?_, ?_⟩
  · rw [markCurrent_blockStack]; exact h1
  · rw [markCurrent_varStack]; exact h2
  · rw [markCurrent_controlStack]; exact h3
  · rw [markCurrent_unmatchedCloses]; exact h4

theorem declStep_stacks (s : ScanState) (o : Str) :
    (declStep s o).blockStack = s.blockStack ∧
    (declStep s o).varStack = s.varStack ∧
    (declStep s o).controlStack = s.controlStack ∧
    (declStep s o).unmatchedCloses = s.unmatchedCloses := by
  unfold declStep
  cases h : declRegexFull (trimL o) with
  | some nt =>
    simp only [h]
    split <;> exact ⟨rfl, rfl, rfl, rfl⟩
  | none =>
    simp only [h]
    cases h2 : declRegexSimple (trimL o) with
    | some nt =>
      simp only [h2]
      split <;> exact ⟨rfl, rfl, rfl, rfl⟩
    | none => simp [h2]

theorem StacksOK_declStep {s : ScanState} {tr : List Event} (o : Str)
    (h : StacksOK s tr) : StacksOK (declStep s o) tr := by
  rcases declStep_stacks s o with ⟨p1, p2, p3, p4⟩
  rcases h with ⟨h1, h2, h3, h4⟩
  refine ⟨?_, ?_, ?_, ?_⟩
  · rw [p1]; exact h1
  · rw [p2]; exact h2
  · rw [p3]; exact h3
  · rw [p4]; exact h4

theorem blockOpenStep_match (s : ScanState) (o kw : Str) (tr : List Event)
    (h : StacksOK s tr) :
    StacksOK (blockOpenStep s o kw).1 (tr ++ (blockOpenStep s o kw).2.1) := by
  rcases h with ⟨h1, h2, h3, h4⟩
  unfold blockOpenStep
  dsimp only
  refine ⟨?_, ?_, ?_, h4⟩
  · rw [runMatcher_append, h1]
    simp [runMatcher]
  · rw [runMatcher_append, h2]
    simp [runMatcher]
  · rw [runMatcher_append, h3]
    simp [runMatcher]

theorem blockCloseStep_match (s : ScanState) (k : Str) (tr : List Event)
    (h : StacksOK s tr) :
    MatchInv (blockCloseStep s k).1 (tr ++ (blockCloseStep s k).2.1) := by
  rcases h with ⟨h1, h2, h3, h4⟩
  unfold blockCloseStep
  dsimp only
  cases hbs : s.blockStack with
  | nil =>
    right; left
    rw [runMatcher_append, h1, hbs]
    simp [runMatcher]
  | cons top rest =>
    dsimp only
    by_cases hp : blockPairOf top.keyword = some k
    · rw [if_pos hp]
      left
      refine ⟨?_, ?_, ?_, ?_⟩
      · rw [runMatcher_append, h1, hbs]
        simp [runMatcher, famMatches, hp]
      · rw [runMatcher_append, h2]
        simp [runMatcher, markCurrent_varStack]
      · rw [runMatcher_append, h3]
        simp [runMatcher, markCurrent_controlStack]
      · simp only [markCurrent_unmatchedCloses]
        exact h4
    · rw [if_neg hp]
      right; left
      rw [runMatcher_append, h1, hbs]
      simp [runMatcher, famMatches, hp]

theorem varEndStep_match (s : ScanState) (u : Str) (tr : List Event)
    (h : StacksOK s tr) :
    MatchInv (varEndStep s u).1 (tr ++ (varEndStep s u).2.1) := by
  rcases h with ⟨h1, h2, h3, h4⟩
  unfold varEndStep
  dsimp only
  cases hvs : s.varStack with
  | nil =>
    right; right; left
    rw [runMatcher_append, h2, hvs]
    simp [runMatcher]
  | cons top rest =>
    dsimp only
    by_cases hm : famMatches .varF top.keyword
        (if ("END_STRUCT".data) <+: u then "END_STRUCT".data
         else "END_VAR".data) = true
    · left
      refine ⟨?_, ?_, ?_, h4⟩
      · rw [runMatcher_append, h1]
        simp [runMatcher]
      · rw [runMatcher_append, h2, hvs]
        simp [runMatcher, hm]
      · rw [runMatcher_append, h3]
        simp [runMatcher]
    · right; right; left
      rw [runMatcher_append, h2, hvs]
      simp [runMatcher, hm]

theorem varOpenStep_match (s : ScanState) (kw : Str) (tr : List Event)
    (h : StacksOK s tr) :
    StacksOK (varOpenStep s kw).1 (tr ++ (varOpenStep s kw).2.1) := by
  rcases h with ⟨h1, h2, h3, h4⟩
  unfold varOpenStep
  dsimp only
  refine ⟨?_, ?_, ?_, h4⟩
  · rw [runMatcher_append, h1]
    simp [runMatcher]
  · rw [runMatcher_append, h2]
    simp [runMatcher]
  · rw [runMatcher_append, h3]
    simp [runMatcher]

theorem varConstStep_match (s : ScanState) (tr : List Event)
    (h : StacksOK s tr) :
    StacksOK (varConstStep s).1 (tr ++ (varConstStep s).2.1) := by
  rcases h with ⟨h1, h2, h3, h4⟩
  unfold varConstStep
  dsimp only
  refine ⟨?_, ?_, ?_, h4⟩
  · rw [runMatcher_append, h1]
    simp [runMatcher]
  · rw [runMatcher_append, h2]
    simp [runMatcher]
  · rw [runMatcher_append, h3]
    simp [runMatcher]

/-! The executable-code branch, staged (under the conditions sending it
past the CASE and ELSE special cases). -/

def tailStep2 (s1 : ScanState) (L : Nat) (u : Str) : ScanState × List Event :=
  if (u = "IF".data ∨ "IF ".data.isPrefixOf u) ∧ ¬ ("ELSIF".data.isPrefixOf u) then
    ({ s1 with controlStack := ⟨"IF".data, L, 0⟩ :: s1.controlStack },
     [⟨.ctrlF, true, "IF".data⟩])
  else (s1, [])

def tailStep3 (s2 : ScanState) (L : Nat) (u : Str) : ScanState × List Event :=
  match ["FOR".data, "WHILE".data, "REPEAT".data, "REGION".data].find?
      (fun k => matchKeyword u k) with
  | some k => ({ s2 with controlStack := ⟨k, L, 0⟩ :: s2.controlStack }, [⟨.ctrlF, true, k⟩])
  | none => (s2, [])

def tailStep4 (s3 : ScanState) (L : Nat) (u : Str) : ScanState × List Event :=
  match controlEnds.find? (fun k => matchKeyword u k) with
  | some closeKw =>
    (match s3.controlStack with
     | top :: rest =>
       if some top.keyword = controlEndToOpen closeKw then { s3 with controlStack := rest }
       else { s3 with unmatchedCloses := s3.unmatchedCloses ++ [⟨closeKw, L, 0⟩] }
     | [] => { s3 with unmatchedCloses := s3.unmatchedCloses ++ [⟨closeKw, L, 0⟩] },
     [⟨.ctrlF, false, closeKw⟩])
  | none => (s3, [])

def tailStep5 (s4 : ScanState) (L : Nat) (u : Str) : ScanState :=
  if matchKeyword u "EXIT".data ∨ matchKeyword u "CONTINUE".data then
    if s4.controlStack.any (fun e => loopKeywords.contains e.keyword) then s4
    else
      { s4 with exitOutside := s4.exitOutside ++
          [⟨(if "EXIT".data.isPrefixOf u then "EXIT".data else "CONTINUE".data), L, 0⟩] }
  else s4

theorem codeStepTail_eq_steps (s1 : ScanState) (L : Nat) (u : Str)
    (hC : ¬ (matchKeyword u "CASE".data = true))
    (hE : ¬ (matchKeyword u "ELSE".data = true ∧ ¬ s1.controlStack.isEmpty = true)) :
    codeStepTail s1 L u =
      (tailStep5 (tailStep4 (tailStep3 (tailStep2 s1 L u).1 L u).1 L u).1 L u,
       (tailStep2 s1 L u).2 ++ (tailStep3 (tailStep2 s1 L u).1 L u).2 ++
         (tailStep4 (tailStep3 (tailStep2 s1 L u).1 L u).1 L u).2,
       (if matchKeyword u "IF".data then [⟨.ctrlF, true, "IF".data⟩] else []) ++
         (tailStep3 (tailStep2 s1 L u).1 L u).2 ++
         (tailStep4 (tailStep3 (tailStep2 s1 L u).1 L u).1 L u).2) := by
  unfold codeStepTail tailStep2 tailStep3 tailStep4 tailStep5
  rw [if_neg hC, if_neg hE]
  by_cases hif : ((u = "IF".data ∨ ("IF ".data).isPrefixOf u = true) ∧
      ¬ (("ELSIF".data).isPrefixOf u = true))
  · simp only [if_pos hif]
  · simp only [if_neg hif]

theorem tailStep2_match (s1 : ScanState) (L : Nat) (u : Str) (tr : List Event)
    (h : StacksOK s1 tr) :
    StacksOK (tailStep2 s1 L u).1 (tr ++ (tailStep2 s1 L u).2) := by
  rcases h with ⟨h1, h2, h3, h4⟩
  unfold tailStep2
  split
  · refine ⟨?_, ?_, ?_, h4⟩
    · rw [runMatcher_append, h1]
      simp [runMatcher]
    · rw [runMatcher_append, h2]
      simp [runMatcher]
    · rw [runMatcher_append, h3]
      simp [runMatcher]
  · simp only [List.append_nil]
    exact ⟨h1, h2, h3, h4⟩

theorem tailStep3_match (s2 : ScanState) (L : Nat) (u : Str) (tr : List Event)
    (h : StacksOK s2 tr) :
    StacksOK (tailStep3 s2 L u).1 (tr ++ (tailStep3 s2 L u).2) := by
  rcases h with ⟨h1, h2, h3, h4⟩
  unfold tailStep3
  split
  · refine ⟨?_, ?_, ?_, h4⟩
    · rw [runMatcher_append, h1]
      simp [runMatcher]
    · rw [runMatcher_append, h2]
      simp [runMatcher]
    · rw [runMatcher_append, h3]
      simp [runMatcher]
  · simp only [List.append_nil]
    exact ⟨h1, h2, h3, h4⟩

theorem tailStep4_match (s3 : ScanState) (L : Nat) (u : Str) (tr : List Event)
    (h : StacksOK s3 tr) :
    StacksOK (tailStep4 s3 L u).1 (tr ++ (tailStep4 s3 L u).2) ∨
    runMatcher .ctrlF (tr ++ (tailStep4 s3 L u).2) [] = none := by
  rcases h with ⟨h1, h2, h3, h4⟩
  unfold tailStep4
  cases hf : controlEnds.find? (fun k => matchKeyword u k) with
  | none =>
    left
    simp only [List.append_nil]
    exact ⟨h1, h2, h3, h4⟩
  | some ck =>
    dsimp only
    cases hcs : s3.controlStack with
    | nil =>
      right
      rw [runMatcher_append, h3, hcs]
      simp [runMatcher]
    | cons top rest =>
      dsimp only
      by_cases hsc : some top.keyword = controlEndToOpen ck
      · rw [if_pos hsc]
        left
        refine ⟨?_, ?_, ?_, h4⟩
        · rw [runMatcher_append, h1]
          simp [runMatcher]
        · rw [runMatcher_append, h2]
          simp [runMatcher]
        · rw [runMatcher_append, h3, hcs]
          simp [runMatcher, famMatches, hsc.symm]
      · rw [if_neg hsc]
        right
        rw [runMatcher_append, h3, hcs]
        have hsc2 : ¬ (controlEndToOpen ck = some top.keyword) := fun hh => hsc hh.symm
        simp [runMatcher, famMatches, hsc2]

theorem tailStep5_proj (s4 : ScanState) (L : Nat) (u : Str) :
    (tailStep5 s4 L u).blockStack = s4.blockStack ∧
    (tailStep5 s4 L u).varStack = s4.varStack ∧
    (tailStep5 s4 L u).controlStack = s4.controlStack ∧
    (tailStep5 s4 L u).unmatchedCloses = s4.unmatchedCloses := by
  unfold tailStep5
  split
  · split <;> exact ⟨rfl, rfl, rfl, rfl⟩
  · exact ⟨rfl, rfl, rfl, rfl⟩

theorem codeStepTail_match (s1 : ScanState) (L : Nat) (u : Str) (tr : List Event)
    (h : StacksOK s1 tr) :
    MatchInv (codeStepTail s1 L u).1 (tr ++ (codeStepTail s1 L u).2.1) := by
  by_cases hC : matchKeyword u "CASE".data = true
  · unfold codeStepTail
    rw [if_pos hC]
    dsimp only
    rcases h with ⟨h1, h2, h3, h4⟩
    left
    refine ⟨?_, ?_, ?_, ?_⟩
    · rw [runMatcher_append, h1]
      simp [runMatcher, markCurrent_blockStack]
    · rw [runMatcher_append, h2]
      simp [runMatcher, markCurrent_varStack]
    · rw [runMatcher_append, h3]
      simp [runMatcher, markCurrent_controlStack]
    · simp only [markCurrent_unmatchedCloses]
      exact h4
  · by_cases hE : (matchKeyword u "ELSE".data = true ∧ ¬ s1.controlStack.isEmpty = true)
    · unfold codeStepTail
      rw [if_neg hC, if_pos hE]
      cases hcs : s1.controlStack with
      | nil =>
        dsimp only
        simp only [List.append_nil]
        exact Or.inl h
      | cons top rest =>
        dsimp only
        by_cases hT : (top.keyword = "CASE".data ∧ s1.currentBlock.isSome = true)
        · rw [if_pos hT]
          dsimp only
          simp only [List.append_nil]
          exact Or.inl (StacksOK_markCurrent _ h)
        · rw [if_neg hT]
          dsimp only
          simp only [List.append_nil]
          exact Or.inl h
    · rw [codeStepTail_eq_steps s1 L u hC hE]
      dsimp only
      have hs2 := tailStep2_match s1 L u tr h
      have hs3 := tailStep3_match (tailStep2 s1 L u).1 L u (tr ++ (tailStep2 s1 L u).2) hs2
      rcases tailStep4_match (tailStep3 (tailStep2 s1 L u).1 L u).1 L u
          ((tr ++ (tailStep2 s1 L u).2) ++ (tailStep3 (tailStep2 s1 L u).1 L u).2) hs3 with
        hm | hm
      · left
        rcases hm with ⟨m1, m2, m3, m4⟩
        rcases tailStep5_proj (tailStep4 (tailStep3 (tailStep2 s1 L u).1 L u).1 L u).1 L u with
          ⟨p1, p2, p3, p4⟩
        refine ⟨?_, ?_, ?_, ?_⟩
        · rw [p1]
          simpa only [← List.append_assoc] using m1
        · rw [p2]
          simpa only [← List.append_assoc] using m2
        · rw [p3]
          simpa only [← List.append_assoc] using m3
        · rw [p4]
          exact m4
      · right; right; right
        simpa only [← List.append_assoc] using hm

theorem codeStep_match (s : ScanState) (t u : Str) (tr : List Event)
    (h : StacksOK s tr) :
    MatchInv (codeStep s t u).1 (tr ++ (codeStep s t u).2.1) := by
  rw [codeStep_eq_tail]
  by_cases hc : (s.currentBlock.isSome ∧ t ≠ [';'] ∧ ¬ ("END_".data.isPrefixOf u))
  · rw [if_pos hc]
    exact codeStepTail_match _ _ _ _ (StacksOK_markCurrent _ h)
  · rw [if_neg hc]
    exact codeStepTail_match _ _ _ _ h

theorem snd1_of_eq3 {α β γ : Type} {x : α × β × γ} {a : α} {b : β} {c : γ}
    (h : x = (a, b, c)) : b = x.2.1 := by
  rw [h]

theorem fst_of_eq3 {α β γ : Type} {x : α × β × γ} {a : α} {b : β} {c : γ}
    (h : x = (a, b, c)) : a = x.1 := by
  rw [h]

/-- One classified line preserves the matcher invariant. -/
theorem classify_match (s : ScanState) (o : Str) (tr : List Event)
    (h : StacksOK s tr) :
    MatchInv (classify s o).1 (tr ++ (classify s o).2.1) := by
  cases hcl2 : classify s o with
  | mk s2 ev =>
    cases ev with
    | mk e1 e2 =>
      dsimp only
      unfold classify at hcl2
      dsimp only at hcl2
      split at hcl2
      · obtain rfl := fst_of_eq3 hcl2
        obtain rfl := snd1_of_eq3 hcl2
        simp only [List.append_nil]
        exact Or.inl h
      · split at hcl2
        · obtain rfl := fst_of_eq3 hcl2
          obtain rfl := snd1_of_eq3 hcl2
          simp only [List.append_nil]
          exact Or.inl (StacksOK_markCurrent _ h)
        · split at hcl2
          · obtain rfl := fst_of_eq3 hcl2
            obtain rfl := snd1_of_eq3 hcl2
            simp only [List.append_nil]
            exact Or.inl (StacksOK_markCurrent _ h)
          · split at hcl2
            · obtain rfl := fst_of_eq3 hcl2
              obtain rfl := snd1_of_eq3 hcl2
              exact Or.inl (blockOpenStep_match _ _ _ _ h)
            · split at hcl2
              · obtain rfl := fst_of_eq3 hcl2
                obtain rfl := snd1_of_eq3 hcl2
                exact blockCloseStep_match _ _ _ h
              · split at hcl2
                · obtain rfl := fst_of_eq3 hcl2
                  obtain rfl := snd1_of_eq3 hcl2
                  simp only [List.append_nil]
                  exact Or.inl (StacksOK_markCurrent _ h)
                · split at hcl2
                  · obtain rfl := fst_of_eq3 hcl2
                    obtain rfl := snd1_of_eq3 hcl2
                    exact varEndStep_match _ _ _ h
                  · split at hcl2
                    · obtain rfl := fst_of_eq3 hcl2
                      obtain rfl := snd1_of_eq3 hcl2
                      exact Or.inl (varConstStep_match _ _ h)
                    · split at hcl2
                      · obtain rfl := fst_of_eq3 hcl2
                        obtain rfl := snd1_of_eq3 hcl2
                        exact Or.inl (varOpenStep_match _ _ _ h)
                      · split at hcl2
                        · obtain rfl := fst_of_eq3 hcl2
                          obtain rfl := snd1_of_eq3 hcl2
                          simp only [List.append_nil]
                          exact Or.inl (StacksOK_declStep _ h)
                        · split at hcl2
                          · obtain rfl := fst_of_eq3 hcl2
                            obtain rfl := snd1_of_eq3 hcl2
                            exact codeStep_match _ _ _ _ h
                          · obtain rfl := fst_of_eq3 hcl2
                            obtain rfl := snd1_of_eq3 hcl2
                            simp only [List.append_nil]
                            exact Or.inl h

theorem stripStages_match (s : ScanState) (l0 : Str) (tr : List Event)
    (h : StacksOK s tr) :
    MatchInv (stripStages s l0).1 (tr ++ (stripStages s l0).2.1) := by
  unfold stripStages
  dsimp only
  split
  · exact classify_match _ _ _ h
  · exact classify_match _ _ _ h

theorem processLine_match (s : ScanState) (raw : Str) (tr : List Event)
    (h : MatchInv s tr) :
    MatchInv (processLine s raw).1 (tr ++ (processLine s raw).2.1) := by
  rcases h with hOK | hn | hn | hn
  · unfold processLine
    dsimp only
    split
    · split
      · exact stripStages_match _ _ _ hOK
      · simp only [List.append_nil]
        exact Or.inl hOK
    · exact stripStages_match _ _ _ hOK
  · right; left
    rw [runMatcher_append, hn]
    rfl
  · right; right; left
    rw [runMatcher_append, hn]
    rfl
  · right; right; right
    rw [runMatcher_append, hn]
    rfl

theorem scanLines_match (ls : List Str) (s : ScanState) (tr : List Event)
    (h : MatchInv s tr) :
    MatchInv (scanLines s ls).1 (tr ++ (scanLines s ls).2.1) := by
  induction ls generalizing s tr with
  | nil =>
    simp only [scanLines, List.append_nil]
    exact h
  | cons raw rest ih =>
    simp only [scanLines]
    have h2 := processLine_match s raw tr h
    have h3 := ih (processLine s raw).1 (tr ++ (processLine s raw).2.1) h2
    simpa only [← List.append_assoc] using h3

/-- C1, counterexample: an input that is well formed under the spec's
uniform keyword-recognition rule (every opener has a matching closer in
order, for all three families, with IF recognized per the keyword rule,
here followed by a tab), for which `parse` still reports an unmatched
`END_IF` closer. -/
theorem c1_counterexample :
    specWellFormed
        ("FUNCTION_BLOCK \"FB_X\"\nBEGIN\nIF\t#a THEN\nEND_IF;\nEND_FUNCTION_BLOCK".data) =
      true ∧
    (parse ("FUNCTION_BLOCK \"FB_X\"\nBEGIN\nIF\t#a THEN\nEND_IF;\nEND_FUNCTION_BLOCK".data)).unmatchedCloses ≠
      [] :=
  ⟨by decide, by decide⟩

/-- **C1** (amended): for input that is well formed per the scanner's own
opener/closer recognition (`wellFormed`: the event trace of each of the
three delimiter families is balanced, each closer exactly matching its
opener), `parse` leaves both `unmatchedOpens` and `unmatchedCloses`
empty. -/
theorem c1_amended (text : Str) (h : wellFormed text = true) :
    (parse text).unmatchedOpens = [] ∧ (parse text).unmatchedCloses = [] := by
  have hOK0 : StacksOK initState [] := ⟨rfl, rfl, rfl, rfl⟩
  have hm := scanLines_match (splitLines text) initState [] (Or.inl hOK0)
  rw [List.nil_append] at hm
  simp only [wellFormed, balanced, decide_eq_true_eq] at h
  rcases hm with hOK | hn | hn | hn
  · rcases hOK with ⟨m1, m2, m3, m4⟩
    have hbs : (scanLines initState (splitLines text)).1.blockStack = [] :=
      List.map_eq_nil.mp (Option.some.inj (m1.symm.trans h.1))
    have hvs : (scanLines initState (splitLines text)).1.varStack = [] :=
      List.map_eq_nil.mp (Option.some.inj (m2.symm.trans h.2.1))
    have hcs : (scanLines initState (splitLines text)).1.controlStack = [] :=
      List.map_eq_nil.mp (Option.some.inj (m3.symm.trans h.2.2))
    constructor
    · have hopens : (parse text).unmatchedOpens =
          (scanLines initState (splitLines text)).1.blockStack.reverse ++
            (scanLines initState (splitLines text)).1.varStack.reverse ++
            (scanLines initState (splitLines text)).1.controlStack.reverse := rfl
      rw [hopens, hbs, hvs, hcs]
      rfl
    · exact m4
  · exact absurd (hn.symm.trans h.1) (by simp)
  · exact absurd (hn.symm.trans h.2.1) (by simp)
  · exact absurd (hn.symm.trans h.2.2) (by simp)

/-- Concrete balanced input for the C1 witness. -/
def c1text : Str :=
  ("FUNCTION_BLOCK \"FB_W\"\nVAR\n  x : Bool;\nEND_VAR\nBEGIN\nIF #x THEN\nEND_IF;\nEND_FUNCTION_BLOCK").data

/-- Witness for the amended C1 at a concrete well-formed parse. -/
theorem c1_amended_witness :
    wellFormed c1text = true ∧
    ((parse c1text).unmatchedOpens = [] ∧ (parse c1text).unmatchedCloses = []) :=
  ⟨by decide, c1_amended c1text (by decide)⟩

end SCL
